import Mathlib

/-!
GraphViz force-directed layout: a verification development.

Shallow embedding of `main.cpp` and `SimpleGraph.h`.

Modelling decisions.

* `double` is an arbitrary field `R`; the `<cmath>` functions the program calls
  (`sqrt`, `cos`, `sin`, `atan2`) are the fields of a record `MathOps R` that every
  function of the embedding receives.  Statements that need the meaning of these
  functions are made at `R = ℝ` with `realMath` (exact real arithmetic; rounding,
  infinities and NaN are outside the model).
* `size_t` is a natural number below `2 ^ 64`; the one subtraction the program performs
  on `size_t` (`graph.nodes.size() - 1`) is `sizeSub`, which wraps.
* `vector<T>` is `List T`; `v[i]` with `i` out of bounds is undefined behaviour and is
  modelled as `none`, so every pass over the accumulator returns an `Option`.
* `for (size_t i = lo; i < hi; i++)` with a loop-invariant bound is `forRange lo hi`,
  which runs the body `hi - lo` times at `lo, lo + 1, ...`.
* A file is the list of its characters; `ifstream >> size_t` is `extractSizeT`.
* What a function computes only up to the rounding of `double` is not stated here: the
  initial positions of `CreateInitialNode` (a rounded angle, then a rounded `cos` and
  `sin`) and the window coordinates of `GraphVisualizer.cpp` (a rounded product, quotient
  and sum) have no theorem, since an exact field says nothing reliable about them.
-/

namespace GraphViz

/-! ## Data model (`SimpleGraph.h`) -/

/-- The `<cmath>` functions used by `main.cpp`, on the type `R` standing for `double`. -/
structure MathOps (R : Type) where
  /-- The function `sqrt`. -/
  sqrt : R → R
  /-- The function `cos`. -/
  cos : R → R
  /-- The function `sin`. -/
  sin : R → R
  /-- The function `atan2 y x`. -/
  atan2 : R → R → R

/-- `struct Node { double x, y; }`. -/
@[ext]
structure Node (R : Type) where
  /-- Horizontal coordinate. -/
  x : R
  /-- Vertical coordinate. -/
  y : R

/-- `struct Edge { size_t start, end; }`. -/
structure Edge where
  /-- Index of the first endpoint. -/
  start : Nat
  /-- Index of the second endpoint. -/
  «end» : Nat
deriving DecidableEq

/-- `struct SimpleGraph { vector<Node> nodes; vector<Edge> edges; }`. -/
structure SimpleGraph (R : Type) where
  /-- The node positions, indexed by node number. -/
  nodes : List (Node R)
  /-- The edges, in file order. -/
  edges : List Edge

/-! ## Machine arithmetic and loops -/

/-- Subtraction of two `size_t` values: it wraps modulo `2 ^ 64`. -/
def sizeSub (a b : Nat) : Nat := (a + 2 ^ 64 - b) % 2 ^ 64

/-- Runs `body i` for `count` consecutive values of `i` starting at the given index,
threading the state and stopping at the first undefined step. -/
def forLoop {σ : Type} (body : Nat → σ → Option σ) : Nat → Nat → σ → Option σ
  | 0, _, s => some s
  | k + 1, i, s =>
    match body i s with
    | none => none
    | some s' => forLoop body k (i + 1) s'

/-- The loop `for (size_t i = lo; i < hi; i++) body`, whose bound `hi` does not change
while the loop runs: the body is executed for `i = lo, ..., hi - 1`. -/
def forRange {σ : Type} (lo hi : Nat) (body : Nat → σ → Option σ) (s : σ) : Option σ :=
  forLoop body (hi - lo) lo s

/-- The same loop for a body that cannot fail. -/
def forLoopPure {σ : Type} (body : Nat → σ → σ) : Nat → Nat → σ → σ
  | 0, _, s => s
  | k + 1, i, s => forLoopPure body k (i + 1) (body i s)

/-- The loop `for (size_t i = lo; i < hi; i++) body` for a body that cannot fail. -/
def forRangePure {σ : Type} (lo hi : Nat) (body : Nat → σ → σ) (s : σ) : σ :=
  forLoopPure body (hi - lo) lo s

/-- The statement `v[i] = f(v[i])` on a vector; undefined when `i` is out of bounds. -/
def modifyAt {α : Type} (v : List α) (i : Nat) (f : α → α) : Option (List α) :=
  match v[i]? with
  | some a => some (v.set i (f a))
  | none => none

section Layout

variable {R : Type} [Field R]

/-! ## Constants (`main.cpp`, lines 31-33) -/

/-- `const double kPi = 3.14159265358979323;`: the constant holds the `double` nearest to
the literal, which is `884279719003555 / 2 ^ 48` (bits `0x400921FB54442D18`). -/
def kPi : R := 884279719003555 / 2 ^ 48

/-- `const double kRepel = 10e-3;`. -/
def kRepel : R := 10e-3

/-- `const double kAttract = 10e-3;`. -/
def kAttract : R := 10e-3

/-! ## Force calculator (`main.cpp`, lines 337-375) -/

/-- `CalculateFRepel`: `kRepel / sqrt((x1-x0)*(x1-x0) + (y1-y0)*(y1-y0))`. -/
def CalculateFRepel (F : MathOps R) (x0 x1 y0 y1 : R) : R :=
  kRepel / F.sqrt ((x1 - x0) * (x1 - x0) + (y1 - y0) * (y1 - y0))

/-- `CalculateFAttract`: `kAttract * ((x1-x0)*(x1-x0) + (y1-y0)*(y1-y0))`. -/
def CalculateFAttract (x0 x1 y0 y1 : R) : R :=
  kAttract * ((x1 - x0) * (x1 - x0) + (y1 - y0) * (y1 - y0))

/-- `CalculateRadiansAngle`: `atan2(y1-y0, x1-x0)`. -/
def CalculateRadiansAngle (F : MathOps R) (x0 x1 y0 y1 : R) : R :=
  F.atan2 (y1 - y0) (x1 - x0)

/-- `CalculateXForce`: `fRepel * cos(radiansAngle)`. -/
def CalculateXForce (F : MathOps R) (fRepel radiansAngle : R) : R :=
  fRepel * F.cos radiansAngle

/-- `CalculateYForce`: `fRepel * sin(radiansAngle)`. -/
def CalculateYForce (F : MathOps R) (fRepel radiansAngle : R) : R :=
  fRepel * F.sin radiansAngle

/-! ## Layout integrator (`main.cpp`, lines 245-386) -/

/-- `InitializeNodeChanges`: pushes one zero node per node of the graph. -/
def InitializeNodeChanges (graph : SimpleGraph R) : List (Node R) :=
  forRangePure 0 graph.nodes.length
    (fun _ nodeChanges => nodeChanges ++ [({ x := 0, y := 0 } : Node R)]) []

/-- The body of the inner loop of `CalculateRepulsiveForces` (lines 281-295) for the pair
`(nodeIndex0, nodeIndex1)`. -/
def repulsiveBody (F : MathOps R) (nodes : List (Node R)) (nodeIndex0 nodeIndex1 : Nat)
    (nodeChanges : List (Node R)) : Option (List (Node R)) :=
  match nodes[nodeIndex0]?, nodes[nodeIndex1]? with
  | some node0, some node1 =>
    let x0 := node0.x
    let x1 := node1.x
    let y0 := node0.y
    let y1 := node1.y
    let fRepel := CalculateFRepel F x0 x1 y0 y1
    let radiansAngle := CalculateRadiansAngle F x0 x1 y0 y1
    (modifyAt nodeChanges nodeIndex0
        (fun c => { c with x := c.x - CalculateXForce F fRepel radiansAngle })).bind
    fun nc1 => (modifyAt nc1 nodeIndex0
        (fun c => { c with y := c.y - CalculateYForce F fRepel radiansAngle })).bind
    fun nc2 => (modifyAt nc2 nodeIndex1
        (fun c => { c with x := c.x + CalculateXForce F fRepel radiansAngle })).bind
    fun nc3 => modifyAt nc3 nodeIndex1
        (fun c => { c with y := c.y + CalculateYForce F fRepel radiansAngle })
  | _, _ => none

/-- The two nested loops of `CalculateRepulsiveForces` (lines 278-279) around an arbitrary
body: the outer index runs from `0` while it is below `size - 1` (a `size_t` subtraction),
the inner index from `nodeIndex0 + 1` while it is below `size`. -/
def repulsiveLoops {σ : Type} (size : Nat) (body : Nat → Nat → σ → Option σ) (s : σ) :
    Option σ :=
  forRange 0 (sizeSub size 1)
    (fun nodeIndex0 => forRange (nodeIndex0 + 1) size (body nodeIndex0)) s

/-- `CalculateRepulsiveForces`. -/
def CalculateRepulsiveForces (F : MathOps R) (graph : SimpleGraph R)
    (nodeChanges : List (Node R)) : Option (List (Node R)) :=
  repulsiveLoops graph.nodes.length (repulsiveBody F graph.nodes) nodeChanges

/-- The body of the loop of `CalculateAttractiveForces` (lines 310-328) for one edge index. -/
def attractiveBody (F : MathOps R) (graph : SimpleGraph R) (edgeIndex : Nat)
    (nodeChanges : List (Node R)) : Option (List (Node R)) :=
  match graph.edges[edgeIndex]? with
  | none => none
  | some edge =>
    match graph.nodes[edge.start]?, graph.nodes[edge.end]? with
    | some node0, some node1 =>
      let x0 := node0.x
      let x1 := node1.x
      let y0 := node0.y
      let y1 := node1.y
      let fAttract := CalculateFAttract x0 x1 y0 y1
      let radiansAngle := CalculateRadiansAngle F x0 x1 y0 y1
      (modifyAt nodeChanges edge.start
          (fun c => { c with x := c.x + CalculateXForce F fAttract radiansAngle })).bind
      fun nc1 => (modifyAt nc1 edge.start
          (fun c => { c with y := c.y + CalculateYForce F fAttract radiansAngle })).bind
      fun nc2 => (modifyAt nc2 edge.end
          (fun c => { c with x := c.x - CalculateXForce F fAttract radiansAngle })).bind
      fun nc3 => modifyAt nc3 edge.end
          (fun c => { c with y := c.y - CalculateYForce F fAttract radiansAngle })
    | _, _ => none

/-- `CalculateAttractiveForces`. -/
def CalculateAttractiveForces (F : MathOps R) (graph : SimpleGraph R)
    (nodeChanges : List (Node R)) : Option (List (Node R)) :=
  forRange 0 graph.edges.length (attractiveBody F graph) nodeChanges

/-- The body of the loop of `UpdateNodeMovements` (lines 379-384): the node moves by its
accumulator entry, which is then reset. -/
def updateBody (nodeIndex : Nat) (st : SimpleGraph R × List (Node R)) :
    Option (SimpleGraph R × List (Node R)) :=
  match st.2[nodeIndex]? with
  | none => none
  | some d =>
    (modifyAt st.1.nodes nodeIndex (fun p => { p with x := p.x + d.x })).bind
    fun ns1 => (modifyAt ns1 nodeIndex (fun p => { p with y := p.y + d.y })).bind
    fun ns2 => (modifyAt st.2 nodeIndex (fun c => { c with x := 0 })).bind
    fun nc1 => (modifyAt nc1 nodeIndex (fun c => { c with y := 0 })).bind
    fun nc2 => some ({ st.1 with nodes := ns2 }, nc2)

/-- `UpdateNodeMovements`: returns the moved graph and the reset accumulator. -/
def UpdateNodeMovements (graph : SimpleGraph R) (nodeChanges : List (Node R)) :
    Option (SimpleGraph R × List (Node R)) :=
  forRange 0 graph.nodes.length updateBody (graph, nodeChanges)

/-- `TransformGraph`: one step of the layout. -/
def TransformGraph (F : MathOps R) (graph : SimpleGraph R) : Option (SimpleGraph R) :=
  let nodeChanges := InitializeNodeChanges graph
  (CalculateRepulsiveForces F graph nodeChanges).bind
  fun nc1 => (CalculateAttractiveForces F graph nc1).bind
  fun nc2 => (UpdateNodeMovements graph nc2).bind
  fun r => some r.1

/-! ## Initial placement (`main.cpp`, lines 212-218) -/

/-- `CreateInitialNode`: the point at angle `2 * kPi * nodeNumber / totalNumberOfNodes`. -/
def CreateInitialNode (F : MathOps R) (nodeNumber totalNumberOfNodes : Nat) : Node R :=
  { x := F.cos (2 * kPi * (nodeNumber : R) / (totalNumberOfNodes : R))
    y := F.sin (2 * kPi * (nodeNumber : R) / (totalNumberOfNodes : R)) }

/-! ## Graph loading (`main.cpp`, lines 148-204) -/

end Layout

/-- The function `isspace` of the classic locale: space, tab, line feed, vertical tab, form
feed and carriage return. -/
def isSpace (c : Char) : Bool := c.toNat = 32 || (9 ≤ c.toNat && c.toNat ≤ 13)

/-- The decimal digits `0` to `9`. -/
def isDigit (c : Char) : Bool := 48 ≤ c.toNat && c.toNat ≤ 57

/-- The value of a decimal digit. -/
def digitValue (c : Char) : Nat := c.toNat - 48

/-- Consumes the longest run of decimal digits at the front of the input, accumulating its
value in base ten; returns the value and the unread input. -/
def readDigits : List Char → Nat → Nat × List Char
  | [], acc => (acc, [])
  | c :: cs, acc =>
    if isDigit c then readDigits cs (10 * acc + digitValue c) else (acc, c :: cs)

/-- An input stream: the characters not yet read and the `failbit`. -/
structure IStream where
  /-- The unread characters. -/
  buf : List Char
  /-- Whether `fail()` holds. -/
  fail : Bool

/-- The formatted extraction `stream >> value` for a `size_t` (decimal base, classic locale),
as the C++ standard defines it through `num_get` and `strtoull`: nothing is done on a
stream that has already failed; leading white space is skipped; an optional sign and the
longest run of digits are consumed; the extraction fails when there is no digit or when the
digits denote a value above `2 ^ 64 - 1`; a leading minus sign negates the value modulo
`2 ^ 64`.  The value is `none` exactly when the stream has failed afterwards. -/
def extractSizeT (s : IStream) : IStream × Option Nat :=
  if s.fail then (s, none)
  else
    match s.buf.dropWhile isSpace with
    | [] => ({ buf := [], fail := true }, none)
    | c :: cs =>
      let digits := if c = '-' ∨ c = '+' then cs else c :: cs
      match digits with
      | [] => ({ buf := [], fail := true }, none)
      | d :: ds =>
        if isDigit d then
          let r := readDigits (d :: ds) 0
          if r.1 < 2 ^ 64 then
            ({ buf := r.2, fail := false }, some (if c = '-' then sizeSub 0 r.1 else r.1))
          else ({ buf := r.2, fail := true }, none)
        else ({ buf := d :: ds, fail := true }, none)

/-- The loop `while (graphFileStream >> start >> end) { ... push_back ... }` of `LoadGraph`
(lines 172-177).  The first argument bounds the number of iterations; every iteration that
pushes an edge consumes at least two characters, so the length of the unread input is
enough (`readEdges_fuel`). -/
def readEdges : Nat → IStream → List Edge → List Edge
  | 0, _, edges => edges
  | fuel + 1, s, edges =>
    match extractSizeT s with
    | (_, none) => edges
    | (s1, some start) =>
      match extractSizeT s1 with
      | (_, none) => edges
      | (s2, some stop) => readEdges fuel s2 (edges ++ [{ start := start, «end» := stop }])

section Loading

variable {R : Type} [Field R]

/-- `LoadGraph` on the contents of the file the user named.  The console dialogue
(`PromptForFileName`) and the diagnostic written to `cout` are not modelled. -/
def LoadGraph (F : MathOps R) (file : List Char) : SimpleGraph R :=
  let graph : SimpleGraph R := { nodes := [], edges := [] }
  match extractSizeT { buf := file, fail := false } with
  | (_, none) => graph
  | (graphFileStream, some numberOfNodes) =>
    { nodes := forRangePure 0 numberOfNodes
        (fun n nodes => nodes ++ [CreateInitialNode F n numberOfNodes]) graph.nodes
      edges := readEdges graphFileStream.buf.length graphFileStream graph.edges }

end Loading

/-! ## Exact real arithmetic -/

/-- The `<cmath>` functions on the real numbers; `atan2 y x` is the argument of the complex
number `x + y i`, in `(-π, π]`. -/
noncomputable def realMath : MathOps ℝ where
  sqrt := Real.sqrt
  cos := Real.cos
  sin := Real.sin
  atan2 := fun y x => Complex.arg ⟨x, y⟩

/-! ## Specification vocabulary -/

section Vocabulary

variable {R : Type} [Field R]

/-- The accumulator entry (or node position) at index `k` as a pair; `(0, 0)` outside the
vector. -/
def entry (v : List (Node R)) (k : Nat) : R × R :=
  match v[k]? with
  | some c => (c.x, c.y)
  | none => (0, 0)

/-- The node of a graph at index `k` (the origin outside the vector). -/
def nodeAt (nodes : List (Node R)) (k : Nat) : Node R := nodes.getD k { x := 0, y := 0 }

/-- The repulsive delta `R(a, b) = (kRepel / dist(a, b)) * (cos t, sin t)` with
`t = atan2(yb - ya, xb - xa)`. -/
def repulsion (F : MathOps R) (a b : Node R) : R × R :=
  (kRepel / F.sqrt ((b.x - a.x) * (b.x - a.x) + (b.y - a.y) * (b.y - a.y))
      * F.cos (F.atan2 (b.y - a.y) (b.x - a.x)),
   kRepel / F.sqrt ((b.x - a.x) * (b.x - a.x) + (b.y - a.y) * (b.y - a.y))
      * F.sin (F.atan2 (b.y - a.y) (b.x - a.x)))

/-- The attractive delta the code computes for an edge from `a` to `b`:
`kAttract * ((xb-xa)² + (yb-ya)²) * (cos t, sin t)`. -/
def attractiveDelta (F : MathOps R) (a b : Node R) : R × R :=
  (CalculateXForce F (CalculateFAttract a.x b.x a.y b.y) (CalculateRadiansAngle F a.x b.x a.y b.y),
   CalculateYForce F (CalculateFAttract a.x b.x a.y b.y) (CalculateRadiansAngle F a.x b.x a.y b.y))

/-- Every edge index is below the node count. -/
def ValidEdges (graph : SimpleGraph R) : Prop :=
  ∀ e ∈ graph.edges, e.start < graph.nodes.length ∧ e.end < graph.nodes.length

end Vocabulary

/-- The Euclidean distance `d` between two nodes. -/
noncomputable def distance (a b : Node ℝ) : ℝ :=
  Real.sqrt ((b.x - a.x) ^ 2 + (b.y - a.y) ^ 2)

/-- The angle `t = atan2(yb - ya, xb - xa)` from node `a` to node `b`. -/
noncomputable def direction (a b : Node ℝ) : ℝ :=
  realMath.atan2 (b.y - a.y) (b.x - a.x)

/-- One edge of a graph file as text: white space, the decimal start index, white space,
the decimal end index. -/
structure EdgeText where
  /-- The white space before the start index. -/
  lead : List Char
  /-- The start index. -/
  start : Nat
  /-- The white space between the two indices. -/
  mid : List Char
  /-- The end index. -/
  stop : Nat

/-- A non-empty run of white space. -/
def IsGap (w : List Char) : Prop := w ≠ [] ∧ ∀ c ∈ w, isSpace c = true

/-- The characters of the edge list of a graph file; numbers are written in decimal, as
`Nat.repr` writes them. -/
def edgesText : List EdgeText → List Char
  | [] => []
  | t :: ts => t.lead ++ Nat.toDigits 10 t.start ++ (t.mid ++ Nat.toDigits 10 t.stop)
      ++ edgesText ts

/-- The characters of a graph file: optional white space, the node count, the edges, and
optional trailing white space. -/
def graphText (lead : List Char) (n : Nat) (edges : List EdgeText) (trail : List Char) :
    List Char :=
  lead ++ Nat.toDigits 10 n ++ (edgesText edges ++ trail)

/-- The first white-space-delimited token of a text. -/
def firstToken (file : List Char) : List Char :=
  (file.dropWhile isSpace).takeWhile (fun c => !isSpace c)

/-- A token that is a valid unsigned integer: a non-empty run of decimal digits. -/
def IsUnsignedToken (tok : List Char) : Prop := tok ≠ [] ∧ ∀ c ∈ tok, isDigit c = true

/-- The text does not start with a digit. -/
def NoDigitAhead (rest : List Char) : Prop := ∀ c cs, rest = c :: cs → isDigit c = false

/-- Whether a text begins with a decimal number as `>>` accepts it: an optional sign
followed by a digit. -/
def beginsNumber : List Char → Bool
  | [] => false
  | c :: cs =>
    if c = '+' ∨ c = '-' then
      match cs with
      | [] => false
      | d :: _ => isDigit d
    else isDigit c

/-- The signed attractive delta one edge adds to the accumulator entry `k`, as the code
computes it: plus `attractiveDelta` when the edge starts at `k`, minus it when the edge ends
at `k`. -/
def edgeDelta {R : Type} [Field R] (F : MathOps R) (nodes : List (Node R)) (k : Nat)
    (e : Edge) : R × R :=
  (if e.start = k then attractiveDelta F (nodeAt nodes e.start) (nodeAt nodes e.end) else 0)
    - (if e.end = k then attractiveDelta F (nodeAt nodes e.start) (nodeAt nodes e.end) else 0)

/-- An edge that is not a self-loop. -/
def properEdge (e : Edge) : Bool := decide (e.start ≠ e.end)

/-- What may follow the well-formed pairs of a graph file so that the next read of a pair
fails: text that, after white space, is exhausted or does not begin a number; or one more
index followed by such text. -/
def FailingTail (rest : List Char) : Prop :=
  beginsNumber (rest.dropWhile isSpace) = false ∨
  ∃ gap v rest', rest = gap ++ Nat.toDigits 10 v ++ rest' ∧ IsGap gap ∧ v < 2 ^ 64 ∧
    beginsNumber (rest'.dropWhile isSpace) = false

/-! ## Console dialogue and driver (`main.cpp`, lines 61-141, 225-237, 390-413)

`cin` is the list of the lines not yet read; `cout` is the list of the messages written so
far, one per output statement (line ends are not recorded).  A function that would wait for
input forever, because the input is exhausted and every empty line is rejected, returns
`none`. -/

/-- `GetLine`: the next line of input and the lines left; at the end of input `getline`
fails and the buffer stays empty. -/
def GetLine : List (List Char) → List Char × List (List Char)
  | [] => ([], [])
  | line :: rest => (line, rest)

/-- The formatted extraction `converter >> resultInt` for an `int` (32 bits, decimal base):
as `extractSizeT`, but the signed value has to lie between `-2 ^ 31` and `2 ^ 31 - 1`.
Returns the value and the unread characters, or `none` when the extraction fails. -/
def extractInt (buf : List Char) : Option (Int × List Char) :=
  match buf.dropWhile isSpace with
  | [] => none
  | c :: cs =>
    let digits := if c = '-' ∨ c = '+' then cs else c :: cs
    match digits with
    | [] => none
    | d :: ds =>
      if isDigit d then
        let r := readDigits (d :: ds) 0
        let v : Int := if c = '-' then -(r.1 : Int) else (r.1 : Int)
        if -2 ^ 31 ≤ v ∧ v ≤ 2 ^ 31 - 1 then some (v, r.2) else none
      else none

/-- The formatted extraction `converter >> remaining` for a `char`: the first character
that is not white space, or `none` at the end of the buffer. -/
def extractChar (buf : List Char) : Option Char := (buf.dropWhile isSpace).head?

/-- `GetInteger`: reads lines until one holds an integer and nothing else; returns the
integer, the input left and the output. -/
def GetInteger : List (List Char) → List String → Option (Int × List (List Char) × List String)
  | [], _ => none
  | line :: rest, out =>
    match extractInt line with
    | some (resultInt, converter) =>
      match extractChar converter with
      | some remaining =>
        GetInteger rest
          (out ++ ["Unexpected character: " ++ String.singleton remaining, "Retry: "])
      | none => some (resultInt, rest, out)
    | none => GetInteger rest (out ++ ["Please enter an integer.", "Retry: "])

/-- The loop of `GetPositiveInteger`; the first argument bounds the number of iterations
(every iteration reads at least one line). -/
def GetPositiveIntegerLoop : Nat → List (List Char) → List String →
    Option (Int × List (List Char) × List String)
  | 0, _, _ => none
  | fuel + 1, lines, out =>
    match GetInteger lines out with
    | none => none
    | some (integer, rest, out') =>
      if integer > 0 then some (integer, rest, out')
      else GetPositiveIntegerLoop fuel rest
        (out' ++ ["Not a positive integer.", "Please enter a positive integer: "])

/-- `GetPositiveInteger`. -/
def GetPositiveInteger (lines : List (List Char)) (out : List String) :
    Option (Int × List (List Char) × List String) :=
  GetPositiveIntegerLoop lines.length lines out

/-- `PromptForTime`. -/
def PromptForTime (lines : List (List Char)) (out : List String) :
    Option (Int × List (List Char) × List String) :=
  GetPositiveInteger lines (out ++ ["Enter an integer number of seconds to run the algorithm: "])

/-- `PromptForFileName`: reads lines until one names a file that can be opened; the file
system is the function `files` from names to contents. -/
def PromptForFileName (files : List Char → Option (List Char)) :
    List (List Char) → List String → Option (List Char × List (List Char) × List String)
  | [], _ => none
  | fileName :: rest, out =>
    match files fileName with
    | some _ => some (fileName, rest, out ++ ["Please enter a graph file to import: "])
    | none =>
      PromptForFileName files rest
        (out ++ ["Please enter a graph file to import: ",
          String.mk fileName ++ " is an invalid file name."])

/-- `GetElapsedTime`: `difftime(time(NULL), startTime)`, with `time_t` counted in whole
seconds; the second argument is the value `time(NULL)` returns. -/
def GetElapsedTime (startTime now : Int) : Int := now - startTime

/-- The state of a session of the program. -/
structure Session (R : Type) where
  /-- The lines of console input not yet read. -/
  lines : List (List Char)
  /-- The values the coming calls of `time(NULL)` return. -/
  clock : List Int
  /-- The messages written to `cout`. -/
  out : List String
  /-- The graphs passed to `DrawGraph`, in order. -/
  frames : List (SimpleGraph R)

section Driver

variable {R : Type} [Field R]

/-- The loop `while (true) { step; DrawGraph; if (elapsed > algorithmTime) break; }` of
`main` (lines 403-407) around an arbitrary step.  Returns the final state, the clock values
left and the frames drawn; `none` when a step is undefined or the clock values run out. -/
def runningLoopWith {σ : Type} (step : σ → Option σ) (algorithmTime startTime : Int) :
    List Int → σ → List σ → Option (σ × List Int × List σ)
  | [], _, _ => none
  | now :: clock, graph, frames =>
    match step graph with
    | none => none
    | some graph' =>
      if GetElapsedTime startTime now > algorithmTime then
        some (graph', clock, frames ++ [graph'])
      else runningLoopWith step algorithmTime startTime clock graph' (frames ++ [graph'])

/-- The running loop of `main`: the step is `TransformGraph`. -/
def runningLoop (F : MathOps R) (algorithmTime startTime : Int) (clock : List Int)
    (graph : SimpleGraph R) (frames : List (SimpleGraph R)) :
    Option (SimpleGraph R × List Int × List (SimpleGraph R)) :=
  runningLoopWith (TransformGraph F) algorithmTime startTime clock graph frames

/-- The body of the `do ... while` loop of `main` (lines 395-410), up to the question
whether to load another graph. -/
def oneRun (F : MathOps R) (files : List Char → Option (List Char)) (s : Session R) :
    Option (Session R) :=
  match PromptForFileName files s.lines s.out with
  | none => none
  | some (fileName, lines1, out1) =>
    match files fileName with
    | none => none
    | some file =>
      let graph := LoadGraph F file
      match PromptForTime lines1 out1 with
      | none => none
      | some (algorithmTime, lines2, out2) =>
        match s.clock with
        | [] => none
        | startTime :: clock =>
          match runningLoop F algorithmTime startTime clock graph (s.frames ++ [graph]) with
          | none => none
          | some (_, clock', frames') =>
            some { lines := lines2, clock := clock',
                   out := out2 ++ ["Type \"yes\" and hit ENTER to load a new graph or press ENTER to finish the program: "],
                   frames := frames' }

/-- The `do ... while (GetLine() == "yes")` loop of `main`, followed by `return 0`; the
first argument bounds the number of runs.  Returns the exit status and the final state. -/
def mainLoop (F : MathOps R) (files : List Char → Option (List Char)) :
    Nat → Session R → Option (Nat × Session R)
  | 0, _ => none
  | fuel + 1, s =>
    match oneRun F files s with
    | none => none
    | some s' =>
      if (GetLine s'.lines).1 = "yes".toList then
        mainLoop F files fuel { s' with lines := (GetLine s'.lines).2 }
      else some (0, { s' with lines := (GetLine s'.lines).2 })

/-- `main`: the welcome, then the loop; every run reads at least two lines, so the number of
input lines plus one bounds the number of runs. -/
def main (F : MathOps R) (files : List Char → Option (List Char)) (lines : List (List Char))
    (clock : List Int) : Option (Nat × Session R) :=
  mainLoop F files (lines.length + 1)
    { lines := lines, clock := clock,
      out := ["Welcome to CS106L GraphViz!",
        "This program uses a force-directed graph layout algorithm",
        "to render sleek, snazzy pictures of various graphs.", ""],
      frames := [] }

/-- Runs a step `n` times, stopping at the first undefined step. -/
def iterateStep {σ : Type} (step : σ → Option σ) : Nat → σ → Option σ
  | 0, s => some s
  | n + 1, s =>
    match step s with
    | none => none
    | some s' => iterateStep step n s'

/-- The graph after `n` steps of `TransformGraph`. -/
def stepN (F : MathOps R) (n : Nat) (graph : SimpleGraph R) : Option (SimpleGraph R) :=
  iterateStep (TransformGraph F) n graph

end Driver

/-- A line that is a syntactically valid integer with no trailing garbage, denotes `v`
and fits the type `int`: white space, an optional sign, a non-empty run of decimal digits,
white space, with the value in the range `-2 ^ 31 ... 2 ^ 31 - 1`. -/
def IsIntegerLine (line : List Char) (v : Int) : Prop :=
  ∃ (ws1 sign ds ws2 : List Char), line = ws1 ++ sign ++ ds ++ ws2 ∧
    (∀ c ∈ ws1, isSpace c = true) ∧ (∀ c ∈ ws2, isSpace c = true) ∧
    (sign = [] ∨ sign = ['+'] ∨ sign = ['-']) ∧
    ds ≠ [] ∧ (∀ c ∈ ds, isDigit c = true) ∧
    v = (if sign = ['-'] then -((ds.foldl (fun a c => 10 * a + digitValue c) 0 : Nat) : Int)
         else ((ds.foldl (fun a c => 10 * a + digitValue c) 0 : Nat) : Int)) ∧
    -2 ^ 31 ≤ v ∧ v ≤ 2 ^ 31 - 1

/-- A line that is a syntactically valid integer with no trailing garbage and denotes `v`,
whatever the size of `v`: white space, an optional sign, a non-empty run of decimal digits,
white space. -/
def IsIntegerSyntax (line : List Char) (v : Int) : Prop :=
  ∃ (ws1 sign ds ws2 : List Char), line = ws1 ++ sign ++ ds ++ ws2 ∧
    (∀ c ∈ ws1, isSpace c = true) ∧ (∀ c ∈ ws2, isSpace c = true) ∧
    (sign = [] ∨ sign = ['+'] ∨ sign = ['-']) ∧
    ds ≠ [] ∧ (∀ c ∈ ds, isDigit c = true) ∧
    v = (if sign = ['-'] then -((ds.foldl (fun a c => 10 * a + digitValue c) 0 : Nat) : Int)
         else ((ds.foldl (fun a c => 10 * a + digitValue c) 0 : Nat) : Int))

/-- A message that asks the user to enter the duration again. -/
def isRetryMessage (m : String) : Bool :=
  m = "Retry: " || m = "Please enter a positive integer: "

/-- A file system with the single file `g`, a graph of two nodes joined by one edge. -/
def sampleFiles : List Char → Option (List Char) :=
  fun name => if name = "g".toList then some "2\n0 1\n".toList else none

/-! ## Loops -/

theorem forLoop_invariant {σ : Type} (P : Nat → σ → Prop) (body : Nat → σ → Option σ) :
    ∀ (count lo : Nat) (s : σ), P lo s →
      (∀ i t, lo ≤ i → i < lo + count → P i t → ∃ t', body i t = some t' ∧ P (i + 1) t') →
      ∃ s', forLoop body count lo s = some s' ∧ P (lo + count) s' := by
  intro count
  induction count with
  | zero => intro lo s h0 _; exact ⟨s, rfl, by simpa using h0⟩
  | succ k ih =>
    intro lo s h0 hstep
    obtain ⟨t, ht, hPt⟩ := hstep lo s le_rfl (by omega) h0
    obtain ⟨s', hs', hP⟩ := ih (lo + 1) t hPt
      (fun i u hi hlt hu => hstep i u (by omega) (by omega) hu)
    refine ⟨s', ?_, ?_⟩
    · simp only [forLoop, ht]; exact hs'
    · have : lo + (k + 1) = lo + 1 + k := by omega
      rw [this]; exact hP

theorem forLoopPure_invariant {σ : Type} (P : Nat → σ → Prop) (body : Nat → σ → σ) :
    ∀ (count lo : Nat) (s : σ), P lo s →
      (∀ i t, lo ≤ i → i < lo + count → P i t → P (i + 1) (body i t)) →
      P (lo + count) (forLoopPure body count lo s) := by
  intro count
  induction count with
  | zero => intro lo s h0 _; simpa [forLoopPure] using h0
  | succ k ih =>
    intro lo s h0 hstep
    have h1 := ih (lo + 1) (body lo s) (hstep lo s le_rfl (by omega) h0)
      (fun i u hi hlt hu => hstep i u (by omega) (by omega) hu)
    have : lo + (k + 1) = lo + 1 + k := by omega
    rw [this]; simpa [forLoopPure] using h1

theorem sizeSub_one_of_pos {n : Nat} (h0 : 0 < n) (h : n < 2 ^ 64) : sizeSub n 1 = n - 1 := by
  unfold sizeSub
  have : n + 2 ^ 64 - 1 = (n - 1) + 2 ^ 64 := by omega
  rw [this, Nat.add_mod_right, Nat.mod_eq_of_lt (by omega)]

theorem sizeSub_zero_one : sizeSub 0 1 = 2 ^ 64 - 1 := by
  unfold sizeSub
  rw [Nat.zero_add, Nat.mod_eq_of_lt (by omega)]

/-- On a vector of size `0` the nested loops never run their body, whatever the body is. -/
theorem repulsiveLoops_zero {σ : Type} (body : Nat → Nat → σ → Option σ) (s : σ) :
    repulsiveLoops 0 body s = some s := by
  unfold repulsiveLoops forRange
  obtain ⟨s', hs', hP⟩ := forLoop_invariant (fun _ t => t = s)
    (fun nodeIndex0 => forLoop (body nodeIndex0) (0 - (nodeIndex0 + 1)) (nodeIndex0 + 1))
    (sizeSub 0 1 - 0) 0 s rfl
    (fun i t _ _ ht => ⟨t, by show forLoop _ (0 - (i + 1)) _ _ = _; rw [Nat.zero_sub]; rfl, ht⟩)
  rw [hs', hP]

/-! ## Vector updates -/

theorem modifyAt_spec {α : Type} (v : List α) (i : Nat) (f : α → α) (h : i < v.length) :
    ∃ v', modifyAt v i f = some v' ∧ v'.length = v.length ∧
      ∀ k, v'[k]? = if k = i then (v[k]?).map f else v[k]? := by
  refine ⟨v.set i (f v[i]), ?_, by simp, ?_⟩
  · simp [modifyAt, List.getElem?_eq_getElem h]
  · intro k
    rcases eq_or_ne k i with rfl | hk
    · simp [List.getElem?_set, h]
    · simp [hk, List.getElem?_set_ne (Ne.symm hk)]

theorem modifyAt_length {α : Type} {v v' : List α} {i : Nat} {f : α → α}
    (h : modifyAt v i f = some v') : v'.length = v.length := by
  unfold modifyAt at h
  split at h
  · cases h; simp
  · cases h

theorem modifyAt_lt {α : Type} {v v' : List α} {i : Nat} {f : α → α}
    (h : modifyAt v i f = some v') : i < v.length := by
  unfold modifyAt at h
  split at h
  · rename_i a ha
    by_contra hlt
    rw [List.getElem?_eq_none (by omega)] at ha
    cases ha
  · cases h

section Bodies

variable {R : Type} [Field R]

theorem entry_of_lt (v : List (Node R)) (k : Nat) (h : k < v.length) :
    entry v k = (v[k].x, v[k].y) := by
  simp [entry, List.getElem?_eq_getElem h]

theorem entry_of_le (v : List (Node R)) (k : Nat) (h : v.length ≤ k) : entry v k = (0, 0) := by
  simp [entry, List.getElem?_eq_none h]

/-- Two coordinate-wise updates at index `i` followed by two at index `j`, as both force
passes perform them. -/
theorem modify_four (v : List (Node R)) (i j : Nat) (fx fy gx gy : R → R)
    (hi : i < v.length) (hj : j < v.length) :
    ∃ v', ((modifyAt v i (fun c => { c with x := fx c.x })).bind
        fun v1 => (modifyAt v1 i (fun c => { c with y := fy c.y })).bind
        fun v2 => (modifyAt v2 j (fun c => { c with x := gx c.x })).bind
        fun v3 => modifyAt v3 j (fun c => { c with y := gy c.y })) = some v' ∧
      v'.length = v.length ∧
      ∀ k, entry v' k =
        (if k = j then fun p => (gx p.1, gy p.2) else id)
          ((if k = i then fun p => (fx p.1, fy p.2) else id) (entry v k)) := by
  obtain ⟨v1, h1, l1, e1⟩ := modifyAt_spec v i (fun c => { c with x := fx c.x }) hi
  obtain ⟨v2, h2, l2, e2⟩ := modifyAt_spec v1 i (fun c => { c with y := fy c.y }) (by omega)
  obtain ⟨v3, h3, l3, e3⟩ := modifyAt_spec v2 j (fun c => { c with x := gx c.x }) (by omega)
  obtain ⟨v4, h4, l4, e4⟩ := modifyAt_spec v3 j (fun c => { c with y := gy c.y }) (by omega)
  refine ⟨v4, by simp [h1, h2, h3, h4], by omega, ?_⟩
  intro k
  unfold entry
  rw [e4, e3, e2, e1]
  rcases eq_or_ne k i with rfl | hki <;> rcases eq_or_ne k j with rfl | hkj
  · simp [List.getElem?_eq_getElem hi]
  · simp [List.getElem?_eq_getElem hi, hkj]
  · simp [List.getElem?_eq_getElem hj, hki]
  · simp [hki, hkj]

theorem repulsiveBody_spec (F : MathOps R) (nodes nc : List (Node R)) (i j : Nat)
    (hi : i < nodes.length) (hj : j < nodes.length) (hc : nc.length = nodes.length) :
    ∃ nc', repulsiveBody F nodes i j nc = some nc' ∧ nc'.length = nodes.length ∧
      ∀ k, entry nc' k = entry nc k
        + ((if k = j then repulsion F (nodeAt nodes i) (nodeAt nodes j) else 0)
          - (if k = i then repulsion F (nodeAt nodes i) (nodeAt nodes j) else 0)) := by
  have hni : nodes[i]? = some nodes[i] := List.getElem?_eq_getElem hi
  have hnj : nodes[j]? = some nodes[j] := List.getElem?_eq_getElem hj
  have hgi : nodeAt nodes i = nodes[i] := by simp [nodeAt, List.getD, hni]
  have hgj : nodeAt nodes j = nodes[j] := by simp [nodeAt, List.getD, hnj]
  simp only [repulsiveBody, hni, hnj, hgi, hgj, repulsion, CalculateXForce, CalculateYForce,
    CalculateFRepel, CalculateRadiansAngle]
  generalize kRepel / F.sqrt ((nodes[j].x - nodes[i].x) * (nodes[j].x - nodes[i].x)
    + (nodes[j].y - nodes[i].y) * (nodes[j].y - nodes[i].y))
    * F.cos (F.atan2 (nodes[j].y - nodes[i].y) (nodes[j].x - nodes[i].x)) = a
  generalize kRepel / F.sqrt ((nodes[j].x - nodes[i].x) * (nodes[j].x - nodes[i].x)
    + (nodes[j].y - nodes[i].y) * (nodes[j].y - nodes[i].y))
    * F.sin (F.atan2 (nodes[j].y - nodes[i].y) (nodes[j].x - nodes[i].x)) = b
  obtain ⟨v', hv', hl, he⟩ := modify_four nc i j (fun t => t - a) (fun t => t - b)
    (fun t => t + a) (fun t => t + b) (by omega) (by omega)
  refine ⟨v', hv', by omega, ?_⟩
  intro k
  rw [he]
  rcases eq_or_ne k i with rfl | hki <;> rcases eq_or_ne k j with rfl | hkj
  · simp
  · simp [hkj, Prod.ext_iff, sub_eq_add_neg]
  · simp [hki, Prod.ext_iff]
  · simp [hki, hkj]

/-- A loop whose body adds `delta i k` to every entry `k` adds the sum of the deltas. -/
theorem forLoop_accum (n : Nat) (body : Nat → List (Node R) → Option (List (Node R)))
    (delta : Nat → Nat → R × R) (count lo : Nat) (nc : List (Node R)) (hn : nc.length = n)
    (hbody : ∀ i v, lo ≤ i → i < lo + count → v.length = n →
      ∃ v', body i v = some v' ∧ v'.length = n ∧ ∀ k, entry v' k = entry v k + delta i k) :
    ∃ nc', forLoop body count lo nc = some nc' ∧ nc'.length = n ∧
      ∀ k, entry nc' k = entry nc k + ∑ i ∈ Finset.Ico lo (lo + count), delta i k := by
  obtain ⟨s', hs', hl, he⟩ := forLoop_invariant
    (fun i v => v.length = n ∧ ∀ k, entry v k = entry nc k + ∑ t ∈ Finset.Ico lo i, delta t k)
    body count lo nc ⟨hn, by simp⟩
    (by
      intro i v hlo hhi hv
      obtain ⟨v', hv', hl', he'⟩ := hbody i v hlo hhi hv.1
      refine ⟨v', hv', hl', ?_⟩
      intro k
      rw [he', hv.2, Finset.sum_Ico_succ_top hlo, add_assoc])
  exact ⟨s', hs', hl, he⟩

/-- Regrouping the contributions of all pairs `i < j < n` by the node `k` they act on. -/
theorem pair_sum_regroup {M : Type} [AddCommGroup M] (r : Nat → Nat → M) (n k : Nat)
    (hk : k < n) :
    (∑ i ∈ Finset.Ico 0 (n - 1), ∑ j ∈ Finset.Ico (i + 1) n,
        ((if k = j then r i j else 0) - (if k = i then r i j else 0)))
      = (∑ i ∈ Finset.range k, r i k) - ∑ j ∈ Finset.Ico (k + 1) n, r k j := by
  simp only [Finset.sum_sub_distrib]
  congr 1
  · simp only [Finset.sum_ite_eq, Finset.mem_Ico]
    rw [← Finset.sum_filter]
    apply Finset.sum_congr _ (fun _ _ => rfl)
    ext i
    simp only [Finset.mem_filter, Finset.mem_Ico, Finset.mem_range]
    omega
  · have h1 : ∀ i, (∑ j ∈ Finset.Ico (i + 1) n, if k = i then r i j else 0)
        = if k = i then ∑ j ∈ Finset.Ico (i + 1) n, r i j else 0 := by
      intro i
      by_cases h : k = i <;> simp [h]
    simp only [h1, Finset.sum_ite_eq, Finset.mem_Ico]
    by_cases h : k < n - 1
    · simp [h]
    · have : k + 1 = n := by omega
      simp [h, this]

/-- The repulsive pass adds, to entry `k`, the repulsion from every lower-indexed node and
subtracts the repulsion towards every higher-indexed node. -/
theorem CalculateRepulsiveForces_spec (F : MathOps R) (graph : SimpleGraph R)
    (nc : List (Node R)) (h0 : 0 < graph.nodes.length) (hsize : graph.nodes.length < 2 ^ 64)
    (hc : nc.length = graph.nodes.length) :
    ∃ nc', CalculateRepulsiveForces F graph nc = some nc' ∧
      nc'.length = graph.nodes.length ∧
      ∀ k, k < graph.nodes.length → entry nc' k = entry nc k
        + ((∑ i ∈ Finset.range k, repulsion F (nodeAt graph.nodes i) (nodeAt graph.nodes k))
          - ∑ j ∈ Finset.Ico (k + 1) graph.nodes.length,
              repulsion F (nodeAt graph.nodes k) (nodeAt graph.nodes j)) := by
  set n := graph.nodes.length with hn
  set r : Nat → Nat → R × R :=
    fun i j => repulsion F (nodeAt graph.nodes i) (nodeAt graph.nodes j) with hr
  unfold CalculateRepulsiveForces repulsiveLoops forRange
  rw [← hn, sizeSub_one_of_pos h0 hsize]
  obtain ⟨nc', hnc', hl, he⟩ := forLoop_accum n
    (fun nodeIndex0 =>
      forLoop (repulsiveBody F graph.nodes nodeIndex0) (n - (nodeIndex0 + 1)) (nodeIndex0 + 1))
    (fun i k => ∑ j ∈ Finset.Ico (i + 1) n,
      ((if k = j then r i j else 0) - (if k = i then r i j else 0)))
    (n - 1 - 0) 0 nc hc
    (by
      intro i v _ hi hv
      have hin : i + 1 + (n - (i + 1)) = n := by omega
      have := forLoop_accum n (repulsiveBody F graph.nodes i)
        (fun j k => (if k = j then r i j else 0) - (if k = i then r i j else 0))
        (n - (i + 1)) (i + 1) v hv
        (by
          intro j w hj1 hj2 hw
          obtain ⟨w', hw', hl', he'⟩ := repulsiveBody_spec F graph.nodes w i j
            (by omega) (by omega) (by omega)
          exact ⟨w', hw', by omega, he'⟩)
      rw [hin] at this
      exact this)
  refine ⟨nc', hnc', hl, ?_⟩
  intro k hk
  rw [he k]
  have h2 : 0 + (n - 1 - 0) = n - 1 := by omega
  rw [h2, pair_sum_regroup r n k hk]

theorem InitializeNodeChanges_eq (graph : SimpleGraph R) :
    InitializeNodeChanges graph = List.replicate graph.nodes.length { x := 0, y := 0 } := by
  have h := forLoopPure_invariant
    (fun i (v : List (Node R)) => v = List.replicate i { x := 0, y := 0 })
    (fun _ nodeChanges => nodeChanges ++ [({ x := 0, y := 0 } : Node R)])
    (graph.nodes.length - 0) 0 [] rfl
    (by intro i t _ _ ht; rw [ht, List.replicate_succ'])
  simpa [InitializeNodeChanges, forRangePure] using h

theorem entry_InitializeNodeChanges (graph : SimpleGraph R) (k : Nat) :
    entry (InitializeNodeChanges graph) k = 0 := by
  rw [InitializeNodeChanges_eq]
  by_cases h : k < graph.nodes.length
  · rw [entry_of_lt _ _ (by simpa using h)]; simp
  · rw [entry_of_le _ _ (by simpa using h)]; rfl

theorem attractiveBody_spec (F : MathOps R) (graph : SimpleGraph R) (nc : List (Node R))
    (i : Nat) (e : Edge) (he : graph.edges[i]? = some e) (hs : e.start < graph.nodes.length)
    (ht : e.end < graph.nodes.length) (hc : nc.length = graph.nodes.length) :
    ∃ nc', attractiveBody F graph i nc = some nc' ∧ nc'.length = graph.nodes.length ∧
      ∀ k, entry nc' k = entry nc k
        + ((if e.start = k then
              attractiveDelta F (nodeAt graph.nodes e.start) (nodeAt graph.nodes e.end) else 0)
          - (if e.end = k then
              attractiveDelta F (nodeAt graph.nodes e.start) (nodeAt graph.nodes e.end) else 0)) := by
  have hni : graph.nodes[e.start]? = some graph.nodes[e.start] := List.getElem?_eq_getElem hs
  have hnj : graph.nodes[e.end]? = some graph.nodes[e.end] := List.getElem?_eq_getElem ht
  have hgi : nodeAt graph.nodes e.start = graph.nodes[e.start] := by
    simp [nodeAt, List.getD, hni]
  have hgj : nodeAt graph.nodes e.end = graph.nodes[e.end] := by
    simp [nodeAt, List.getD, hnj]
  simp only [attractiveBody, he, hni, hnj, hgi, hgj, attractiveDelta]
  generalize CalculateXForce F _ _ = a
  generalize CalculateYForce F _ _ = b
  obtain ⟨v', hv', hl, hent⟩ := modify_four nc e.start e.end (fun t => t + a) (fun t => t + b)
    (fun t => t - a) (fun t => t - b) (by omega) (by omega)
  refine ⟨v', hv', by omega, ?_⟩
  intro k
  rw [hent]
  rcases eq_or_ne k e.start with h1 | h1 <;> rcases eq_or_ne k e.end with h2 | h2
  · simp [← h1, ← h2]
  · simp [← h1, h2, h2.symm, Prod.ext_iff]
  · simp [h1, h1.symm, ← h2, Prod.ext_iff, sub_eq_add_neg]
  · simp [h1, h2, h1.symm, h2.symm]

/-- A sum over the indices of a list is the sum over its elements. -/
theorem sum_range_getElem? {M : Type} [AddCommMonoid M] (f : Edge → M) (l : List Edge) :
    (∑ i ∈ Finset.range l.length, ((l[i]?).map f).getD 0) = (l.map f).sum := by
  induction l with
  | nil => simp
  | cons a t ih =>
    rw [List.length_cons, Finset.sum_range_succ']
    simp only [List.getElem?_cons_succ, ih, List.getElem?_cons_zero, Option.map_some',
      Option.getD_some, List.map_cons, List.sum_cons]
    exact add_comm _ _

theorem sum_map_sub_eq {M : Type} [AddCommGroup M] (f g : Edge → M) (l : List Edge) :
    (l.map (fun e => f e - g e)).sum = (l.map f).sum - (l.map g).sum := by
  induction l with
  | nil => simp
  | cons a t ih => simp [ih, sub_add_sub_comm]

/-- A sum of guarded terms is the sum over the filtered list. -/
theorem sum_map_ite_eq_filter {M : Type} [AddCommMonoid M] (p : Edge → Prop) [DecidablePred p]
    (f : Edge → M) (l : List Edge) :
    (l.map (fun e => if p e then f e else 0)).sum = ((l.filter (fun e => decide (p e))).map f).sum := by
  induction l with
  | nil => simp
  | cons a t ih =>
    by_cases h : p a <;> simp [List.filter_cons, h, ih]

/-- The attractive pass adds, to entry `k`, the attractive delta of every edge occurrence
starting at `k` and subtracts that of every edge occurrence ending at `k`. -/
theorem CalculateAttractiveForces_spec (F : MathOps R) (graph : SimpleGraph R)
    (nc : List (Node R)) (hvalid : ValidEdges graph) (hc : nc.length = graph.nodes.length) :
    ∃ nc', CalculateAttractiveForces F graph nc = some nc' ∧
      nc'.length = graph.nodes.length ∧
      ∀ k, entry nc' k = entry nc k
        + ((((graph.edges.filter (fun e => decide (e.start = k))).map
              (fun e => attractiveDelta F (nodeAt graph.nodes e.start)
                (nodeAt graph.nodes e.end))).sum)
          - (((graph.edges.filter (fun e => decide (e.end = k))).map
              (fun e => attractiveDelta F (nodeAt graph.nodes e.start)
                (nodeAt graph.nodes e.end))).sum)) := by
  set A : Edge → R × R :=
    fun e => attractiveDelta F (nodeAt graph.nodes e.start) (nodeAt graph.nodes e.end) with hA
  unfold CalculateAttractiveForces forRange
  obtain ⟨nc', hnc', hl, he⟩ := forLoop_accum graph.nodes.length (attractiveBody F graph)
    (fun i k => ((graph.edges[i]?).map
      (fun e => (if e.start = k then A e else 0) - (if e.end = k then A e else 0))).getD 0)
    (graph.edges.length - 0) 0 nc hc
    (by
      intro i v _ hi hv
      have hlt : i < graph.edges.length := by omega
      have hget : graph.edges[i]? = some graph.edges[i] := List.getElem?_eq_getElem hlt
      have hmem := hvalid graph.edges[i] (List.getElem_mem hlt)
      obtain ⟨v', hv', hl', he'⟩ := attractiveBody_spec F graph v i graph.edges[i] hget
        hmem.1 hmem.2 hv
      refine ⟨v', hv', hl', ?_⟩
      intro k
      show _ = _ + ((graph.edges[i]?).map _).getD 0
      rw [he' k, hget]
      simp only [Option.map_some', Option.getD_some, hA])
  refine ⟨nc', hnc', hl, ?_⟩
  intro k
  rw [he k]
  congr 1
  have h2 : Finset.Ico 0 (0 + (graph.edges.length - 0)) = Finset.range graph.edges.length := by
    rw [Finset.range_eq_Ico, Nat.zero_add, Nat.sub_zero]
  rw [h2, sum_range_getElem?
    (fun e => (if e.start = k then A e else 0) - (if e.end = k then A e else 0)) graph.edges,
    sum_map_sub_eq, sum_map_ite_eq_filter, sum_map_ite_eq_filter]

theorem modify_two (v : List (Node R)) (i : Nat) (fx fy : R → R) (hi : i < v.length) :
    ∃ v', ((modifyAt v i (fun c => { c with x := fx c.x })).bind
        fun v1 => modifyAt v1 i (fun c => { c with y := fy c.y })) = some v' ∧
      v'.length = v.length ∧
      ∀ k, entry v' k = if k = i then (fx (entry v k).1, fy (entry v k).2) else entry v k := by
  obtain ⟨v1, h1, l1, e1⟩ := modifyAt_spec v i (fun c => { c with x := fx c.x }) hi
  obtain ⟨v2, h2, l2, e2⟩ := modifyAt_spec v1 i (fun c => { c with y := fy c.y }) (by omega)
  refine ⟨v2, by simp [h1, h2], by omega, ?_⟩
  intro k
  unfold entry
  rw [e2, e1]
  rcases eq_or_ne k i with rfl | hki
  · simp [List.getElem?_eq_getElem hi]
  · simp [hki]

theorem updateBody_spec (i : Nat) (st : SimpleGraph R × List (Node R))
    (hi : i < st.1.nodes.length) (hc : i < st.2.length) :
    ∃ st', updateBody i st = some st' ∧ st'.1.edges = st.1.edges ∧
      st'.1.nodes.length = st.1.nodes.length ∧ st'.2.length = st.2.length ∧
      (∀ k, entry st'.1.nodes k =
        if k = i then entry st.1.nodes k + entry st.2 k else entry st.1.nodes k) ∧
      ∀ k, entry st'.2 k = if k = i then 0 else entry st.2 k := by
  have hd : st.2[i]? = some st.2[i] := List.getElem?_eq_getElem hc
  obtain ⟨ns, hns, hnl, hne⟩ := modify_two st.1.nodes i (fun t => t + st.2[i].x)
    (fun t => t + st.2[i].y) hi
  obtain ⟨cs, hcs, hcl, hce⟩ := modify_two st.2 i (fun _ => 0) (fun _ => 0) hc
  refine ⟨({ st.1 with nodes := ns }, cs), ?_, rfl, hnl, hcl, ?_, ?_⟩
  · simp only [updateBody, hd]
    cases h1 : modifyAt st.1.nodes i (fun p => { p with x := p.x + st.2[i].x }) with
    | none => simp [h1] at hns
    | some ns1 =>
      simp only [h1, Option.some_bind] at hns ⊢
      rw [hns]
      cases h2 : modifyAt st.2 i (fun c => { c with x := 0 }) with
      | none => simp [h2] at hcs
      | some nc1 =>
        simp only [h2, Option.some_bind] at hcs ⊢
        rw [hcs]
        rfl
  · intro k
    rw [hne k]
    rcases eq_or_ne k i with rfl | hki
    · simp [entry_of_lt _ _ hc, Prod.ext_iff]
    · simp [hki]
  · intro k
    rw [hce k]
    rcases eq_or_ne k i with rfl | hki
    · simp
    · simp [hki]

/-- `UpdateNodeMovements` adds every accumulator entry to its node and resets it. -/
theorem UpdateNodeMovements_spec (graph : SimpleGraph R) (nc : List (Node R))
    (hc : nc.length = graph.nodes.length) :
    ∃ st', UpdateNodeMovements graph nc = some st' ∧ st'.1.edges = graph.edges ∧
      st'.1.nodes.length = graph.nodes.length ∧ st'.2.length = graph.nodes.length ∧
      (∀ k, entry st'.1.nodes k = entry graph.nodes k + entry nc k) ∧
      ∀ k, entry st'.2 k = 0 := by
  obtain ⟨st', hst', he, hnl, hcl, h1, h2⟩ := forLoop_invariant
    (fun i (st : SimpleGraph R × List (Node R)) => st.1.edges = graph.edges ∧
      st.1.nodes.length = graph.nodes.length ∧ st.2.length = graph.nodes.length ∧
      (∀ k, entry st.1.nodes k =
        if k < i then entry graph.nodes k + entry nc k else entry graph.nodes k) ∧
      ∀ k, entry st.2 k = if k < i then 0 else entry nc k)
    updateBody (graph.nodes.length - 0) 0 (graph, nc)
    ⟨rfl, rfl, hc, by simp, by simp⟩
    (by
      rintro i st _ hi ⟨he, hnl, hcl, h1, h2⟩
      obtain ⟨st', hst', he', hnl', hcl', h1', h2'⟩ := updateBody_spec i st (by omega) (by omega)
      refine ⟨st', hst', by rw [he', he], by omega, by omega, ?_, ?_⟩
      · intro k
        rw [h1' k, h1 k, h2 k]
        rcases Nat.lt_trichotomy k i with h | h | h
        · simp [h, Nat.ne_of_lt h, Nat.lt_succ_of_lt h]
        · simp [h]
        · simp [Nat.ne_of_gt h, Nat.not_lt_of_gt h, show ¬ k < i + 1 by omega]
      · intro k
        rw [h2' k, h2 k]
        rcases Nat.lt_trichotomy k i with h | h | h
        · simp [h, Nat.lt_succ_of_lt h]
        · simp [h]
        · simp [Nat.ne_of_gt h, Nat.not_lt_of_gt h, show ¬ k < i + 1 by omega])
  refine ⟨st', hst', he, hnl, hcl, ?_, ?_⟩
  · intro k
    rw [h1 k]
    by_cases h : k < graph.nodes.length
    · simp [h]
    · have hz : entry nc k = 0 := entry_of_le _ _ (by omega)
      simp [h, hz]
  · intro k
    rw [h2 k]
    by_cases h : k < graph.nodes.length
    · simp [h]
    · have hz : entry nc k = 0 := entry_of_le _ _ (by omega)
      simp [h, hz]

/-- The repulsive pass completes on every accumulator as long as the node vector. -/
theorem CalculateRepulsiveForces_total (F : MathOps R) (graph : SimpleGraph R)
    (nc : List (Node R)) (hsize : graph.nodes.length < 2 ^ 64)
    (hc : nc.length = graph.nodes.length) :
    ∃ nc', CalculateRepulsiveForces F graph nc = some nc' ∧
      nc'.length = graph.nodes.length := by
  rcases Nat.eq_zero_or_pos graph.nodes.length with h0 | h0
  · refine ⟨nc, ?_, hc⟩
    unfold CalculateRepulsiveForces
    rw [h0]
    exact repulsiveLoops_zero _ _
  · obtain ⟨nc', h, hl, _⟩ := CalculateRepulsiveForces_spec F graph nc h0 hsize hc
    exact ⟨nc', h, hl⟩

theorem TransformGraph_eq (F : MathOps R) (graph : SimpleGraph R)
    (nc1 nc2 : List (Node R)) (st : SimpleGraph R × List (Node R))
    (h1 : CalculateRepulsiveForces F graph (InitializeNodeChanges graph) = some nc1)
    (h2 : CalculateAttractiveForces F graph nc1 = some nc2)
    (h3 : UpdateNodeMovements graph nc2 = some st) :
    TransformGraph F graph = some st.1 := by
  simp [TransformGraph, h1, h2, h3]

theorem repulsiveBody_length (F : MathOps R) (nodes v v' : List (Node R)) (i j : Nat)
    (h : repulsiveBody F nodes i j v = some v') : v'.length = v.length := by
  unfold repulsiveBody at h
  split at h
  · simp only [Option.bind_eq_some] at h
    obtain ⟨v1, h1, v2, h2, v3, h3, h4⟩ := h
    rw [modifyAt_length h4, modifyAt_length h3, modifyAt_length h2, modifyAt_length h1]
  · cases h

theorem attractiveBody_length (F : MathOps R) (graph : SimpleGraph R) (v v' : List (Node R))
    (i : Nat) (h : attractiveBody F graph i v = some v') : v'.length = v.length := by
  unfold attractiveBody at h
  split at h
  · cases h
  · split at h
    · simp only [Option.bind_eq_some] at h
      obtain ⟨v1, h1, v2, h2, v3, h3, h4⟩ := h
      rw [modifyAt_length h4, modifyAt_length h3, modifyAt_length h2, modifyAt_length h1]
    · cases h

theorem updateBody_length (i : Nat) (st st' : SimpleGraph R × List (Node R))
    (h : updateBody i st = some st') :
    st'.1.nodes.length = st.1.nodes.length ∧ st'.2.length = st.2.length ∧
      st'.1.edges = st.1.edges := by
  unfold updateBody at h
  split at h
  · cases h
  · simp only [Option.bind_eq_some] at h
    obtain ⟨v1, h1, v2, h2, v3, h3, v4, h4, h5⟩ := h
    cases h5
    refine ⟨?_, ?_, rfl⟩
    · show v2.length = _
      rw [modifyAt_length h2, modifyAt_length h1]
    · show v4.length = _
      rw [modifyAt_length h4, modifyAt_length h3]

end Bodies

/-! ## Reading numbers -/

theorem isDigit_digitChar (m : Nat) (h : m < 10) :
    isDigit (Nat.digitChar m) = true ∧ digitValue (Nat.digitChar m) = m := by
  interval_cases m <;> exact ⟨rfl, rfl⟩

theorem not_isSpace_of_isDigit (c : Char) (h : isDigit c = true) : isSpace c = false := by
  simp only [isDigit, Bool.and_eq_true, decide_eq_true_eq] at h
  simp only [isSpace, Bool.or_eq_false_iff, Bool.and_eq_false_iff, decide_eq_false_iff_not]
  omega

theorem not_sign_of_isDigit (c : Char) (h : isDigit c = true) : ¬ (c = '-' ∨ c = '+') := by
  rintro (rfl | rfl) <;> exact absurd h (by decide)

/-- With enough fuel, the digit generator of `Nat.repr` puts in front of its accumulator a
non-empty run of digits that reads back, most significant digit first, as the number. -/
theorem decimal_core (fuel n : Nat) (acc : List Char) (hfuel : n < fuel) :
    ∃ ds, (ds.foldl (fun a c => 10 * a + digitValue c) 0 = n ∧ ds ≠ []) ∧
      (∀ c ∈ ds, isDigit c = true) ∧ Nat.toDigitsCore 10 fuel n acc = ds ++ acc := by
  induction fuel generalizing n acc with
  | zero => omega
  | succ fuel ih =>
    have hd := isDigit_digitChar (n % 10) (Nat.mod_lt _ (by omega))
    unfold Nat.toDigitsCore
    by_cases hq : n / 10 = 0
    · refine ⟨[Nat.digitChar (n % 10)], ⟨?_, by simp⟩, by simpa using hd.1, by simp [hq]⟩
      simp only [List.foldl_cons, List.foldl_nil, hd.2]
      omega
    · obtain ⟨ds, ⟨hval, _⟩, hdig, heq⟩ :=
        ih (n / 10) (Nat.digitChar (n % 10) :: acc) (by omega)
      refine ⟨ds ++ [Nat.digitChar (n % 10)], ⟨?_, by simp⟩, ?_, by simp [hq, heq]⟩
      · rw [List.foldl_append, hval]
        simp only [List.foldl_cons, List.foldl_nil, hd.2]
        omega
      · intro c hc
        rcases List.mem_append.1 hc with hc | hc
        · exact hdig c hc
        · rw [List.mem_singleton.1 hc]; exact hd.1

theorem toDigits_spec (n : Nat) :
    Nat.toDigits 10 n ≠ [] ∧ (∀ c ∈ Nat.toDigits 10 n, isDigit c = true) ∧
      (Nat.toDigits 10 n).foldl (fun a c => 10 * a + digitValue c) 0 = n := by
  obtain ⟨ds, ⟨hval, hne⟩, hdig, heq⟩ := decimal_core (n + 1) n [] (by omega)
  have : Nat.toDigits 10 n = ds := by simpa [Nat.toDigits] using heq
  rw [this]
  exact ⟨hne, hdig, hval⟩

theorem readDigits_append (ds rest : List Char) (hds : ∀ c ∈ ds, isDigit c = true)
    (hrest : NoDigitAhead rest) :
    ∀ acc, readDigits (ds ++ rest) acc
      = (ds.foldl (fun a c => 10 * a + digitValue c) acc, rest) := by
  induction ds with
  | nil =>
    intro acc
    cases rest with
    | nil => rfl
    | cons c cs => simp [readDigits, hrest c cs rfl]
  | cons d ds ih =>
    intro acc
    have hd : isDigit d = true := hds d (List.mem_cons_self _ _)
    simp only [List.cons_append, readDigits, hd, if_true, List.foldl_cons]
    exact ih (fun c hc => hds c (List.mem_cons_of_mem _ hc)) _

theorem dropWhile_isSpace_append (ws rest : List Char) (hws : ∀ c ∈ ws, isSpace c = true)
    (hrest : ∀ c cs, rest = c :: cs → isSpace c = false) :
    (ws ++ rest).dropWhile isSpace = rest := by
  induction ws with
  | nil =>
    cases rest with
    | nil => rfl
    | cons c cs => simp [List.dropWhile, hrest c cs rfl]
  | cons w ws ih =>
    simp only [List.cons_append, List.dropWhile, hws w (List.mem_cons_self _ _)]
    exact ih (fun c hc => hws c (List.mem_cons_of_mem _ hc))

/-- Extracting from white space followed by the decimal rendering of `n < 2 ^ 64` yields
`n` and leaves what follows the digits. -/
theorem extractSizeT_number (ws rest : List Char) (n : Nat)
    (hws : ∀ c ∈ ws, isSpace c = true) (hn : n < 2 ^ 64) (hrest : NoDigitAhead rest) :
    extractSizeT { buf := ws ++ Nat.toDigits 10 n ++ rest, fail := false }
      = ({ buf := rest, fail := false }, some n) := by
  obtain ⟨hne, hdig, hval⟩ := toDigits_spec n
  obtain ⟨d, ds, hcons⟩ := List.exists_cons_of_ne_nil hne
  have hd : isDigit d = true := hdig d (by rw [hcons]; exact List.mem_cons_self _ _)
  have hdrop : (ws ++ Nat.toDigits 10 n ++ rest).dropWhile isSpace
      = d :: (ds ++ rest) := by
    rw [List.append_assoc, dropWhile_isSpace_append ws _ hws, hcons]
    · rfl
    · intro c cs hc
      rw [hcons] at hc
      simp only [List.cons_append, List.cons.injEq] at hc
      rw [← hc.1]
      exact not_isSpace_of_isDigit d hd
  have hread : readDigits (d :: (ds ++ rest)) 0 = (n, rest) := by
    have := readDigits_append (Nat.toDigits 10 n) rest hdig hrest 0
    rw [hval, hcons] at this
    exact this
  have hsign : ¬ (d = '-' ∨ d = '+') := not_sign_of_isDigit d hd
  have hminus : ¬ d = '-' := fun h => hsign (Or.inl h)
  have hplus : ¬ d = '+' := fun h => hsign (Or.inr h)
  simp only [extractSizeT, hdrop, Bool.false_eq_true, if_false, hd, if_true, hread, hn,
    hminus, hplus, or_self]

theorem noDigitAhead_of_space (l : List Char)
    (h : ∀ c cs, l = c :: cs → isSpace c = true) : NoDigitAhead l := by
  intro c cs hl
  cases hd : isDigit c with
  | false => rfl
  | true =>
    have := not_isSpace_of_isDigit c hd
    rw [h c cs hl] at this
    cases this

theorem space_head_append (w rest : List Char) (hw : ∀ c ∈ w, isSpace c = true)
    (hrest : ∀ c cs, rest = c :: cs → isSpace c = true) :
    ∀ c cs, w ++ rest = c :: cs → isSpace c = true := by
  intro c cs h
  cases w with
  | nil => exact hrest c cs h
  | cons a w =>
    simp only [List.cons_append, List.cons.injEq] at h
    rw [← h.1]
    exact hw a (List.mem_cons_self _ _)

theorem space_head_of_all (w : List Char) (hw : ∀ c ∈ w, isSpace c = true) :
    ∀ c cs, w = c :: cs → isSpace c = true := by
  intro c cs h
  exact hw c (by rw [h]; exact List.mem_cons_self _ _)

theorem space_head_edgesText (entries : List EdgeText) (trail : List Char)
    (hgaps : ∀ t ∈ entries, IsGap t.lead ∧ IsGap t.mid)
    (htrail : ∀ c ∈ trail, isSpace c = true) :
    ∀ c cs, edgesText entries ++ trail = c :: cs → isSpace c = true := by
  cases entries with
  | nil => exact space_head_of_all trail htrail
  | cons t ts =>
    intro c cs h
    have hg := (hgaps t (List.mem_cons_self _ _)).1
    obtain ⟨a, w, hw⟩ := List.exists_cons_of_ne_nil hg.1
    simp only [edgesText, hw, List.cons_append, List.cons.injEq] at h
    rw [← h.1]
    exact hg.2 a (by rw [hw]; exact List.mem_cons_self _ _)

/-- Extraction fails on a stream that holds white space only. -/
theorem extractSizeT_space (w : List Char) (hw : ∀ c ∈ w, isSpace c = true) :
    extractSizeT { buf := w, fail := false } = ({ buf := [], fail := true }, none) := by
  have : w.dropWhile isSpace = [] := by
    have := dropWhile_isSpace_append w [] hw (fun c cs h => by cases h)
    simpa using this
  simp only [extractSizeT, Bool.false_eq_true, if_false, this]

/-- The edge loop reads a well-formed edge list completely and in order. -/
theorem readEdges_edgesText (entries : List EdgeText) (trail : List Char)
    (hgaps : ∀ t ∈ entries, IsGap t.lead ∧ IsGap t.mid)
    (hvals : ∀ t ∈ entries, t.start < 2 ^ 64 ∧ t.stop < 2 ^ 64)
    (htrail : ∀ c ∈ trail, isSpace c = true) :
    ∀ (fuel : Nat) (acc : List Edge), entries.length ≤ fuel →
      readEdges fuel { buf := edgesText entries ++ trail, fail := false } acc
        = acc ++ entries.map (fun t => { start := t.start, «end» := t.stop }) := by
  induction entries with
  | nil =>
    intro fuel acc _
    cases fuel with
    | zero => simp [readEdges]
    | succ f =>
      have : edgesText [] ++ trail = trail := rfl
      simp [readEdges, this, extractSizeT_space trail htrail]
  | cons t ts ih =>
    intro fuel acc hfuel
    obtain ⟨f, rfl⟩ : ∃ f, fuel = f + 1 := ⟨fuel - 1, by simp at hfuel; omega⟩
    have hg := hgaps t (List.mem_cons_self _ _)
    have hv := hvals t (List.mem_cons_self _ _)
    have hgaps' : ∀ u ∈ ts, IsGap u.lead ∧ IsGap u.mid :=
      fun u hu => hgaps u (List.mem_cons_of_mem _ hu)
    have hvals' : ∀ u ∈ ts, u.start < 2 ^ 64 ∧ u.stop < 2 ^ 64 :=
      fun u hu => hvals u (List.mem_cons_of_mem _ hu)
    have htail := space_head_edgesText ts trail hgaps' htrail
    have hshape : edgesText (t :: ts) ++ trail = t.lead ++ Nat.toDigits 10 t.start
        ++ (t.mid ++ Nat.toDigits 10 t.stop ++ (edgesText ts ++ trail)) := by
      simp [edgesText, List.append_assoc]
    have h1 := extractSizeT_number t.lead
      (t.mid ++ Nat.toDigits 10 t.stop ++ (edgesText ts ++ trail)) t.start hg.1.2 hv.1
      (noDigitAhead_of_space _ (by
        rw [List.append_assoc]
        obtain ⟨a, w, hw⟩ := List.exists_cons_of_ne_nil hg.2.1
        intro c cs h
        simp only [hw, List.cons_append, List.cons.injEq] at h
        rw [← h.1]
        exact hg.2.2 a (by rw [hw]; exact List.mem_cons_self _ _)))
    have h2 := extractSizeT_number t.mid (edgesText ts ++ trail) t.stop hg.2.2 hv.2
      (noDigitAhead_of_space _ htail)
    rw [hshape]
    simp only [readEdges, h1, h2]
    rw [ih hgaps' hvals' f _ (by simp at hfuel; omega)]
    simp

/-- A loop that pushes `f i` for `i = 0, ..., n - 1` builds the list of these values. -/
theorem forRangePure_push {α : Type} (f : Nat → α) (n : Nat) :
    forRangePure 0 n (fun i v => v ++ [f i]) [] = (List.range n).map f := by
  have h := forLoopPure_invariant (fun i (v : List α) => v = (List.range i).map f)
    (fun i v => v ++ [f i]) (n - 0) 0 [] rfl
    (by intro i t _ _ ht; rw [ht, List.range_succ, List.map_append]; rfl)
  simpa [forRangePure] using h

theorem edgesText_length (entries : List EdgeText) :
    entries.length ≤ (edgesText entries).length := by
  induction entries with
  | nil => simp
  | cons t ts ih =>
    have := (toDigits_spec t.start).1
    have h1 : 0 < (Nat.toDigits 10 t.start).length := List.length_pos.2 this
    simp only [edgesText, List.length_append, List.length_cons]
    omega

section LoadingLemmas

variable {R : Type} [Field R]

/-- Loading a well-formed graph file yields its node count and its edges in file order. -/
theorem LoadGraph_graphText (F : MathOps R) (lead trail : List Char) (n : Nat)
    (entries : List EdgeText) (hlead : ∀ c ∈ lead, isSpace c = true)
    (htrail : ∀ c ∈ trail, isSpace c = true) (hn : n < 2 ^ 64)
    (hgaps : ∀ t ∈ entries, IsGap t.lead ∧ IsGap t.mid)
    (hvals : ∀ t ∈ entries, t.start < 2 ^ 64 ∧ t.stop < 2 ^ 64) :
    LoadGraph F (graphText lead n entries trail) =
      { nodes := (List.range n).map (fun i => CreateInitialNode F i n)
        edges := entries.map (fun t => { start := t.start, «end» := t.stop }) } := by
  have h1 := extractSizeT_number lead (edgesText entries ++ trail) n hlead hn
    (noDigitAhead_of_space _ (space_head_edgesText entries trail hgaps htrail))
  have h2 := readEdges_edgesText entries trail hgaps hvals htrail
    (edgesText entries ++ trail).length []
    (by rw [List.length_append]; have := edgesText_length entries; omega)
  simp only [LoadGraph, graphText, h1, h2, forRangePure_push, List.nil_append]

end LoadingLemmas

/-! ## Adequacy of the iteration bound of the edge loop -/

theorem readDigits_length (l : List Char) :
    ∀ acc, (readDigits l acc).2.length ≤ l.length := by
  induction l with
  | nil => intro acc; simp [readDigits]
  | cons c cs ih =>
    intro acc
    by_cases h : isDigit c = true
    · simp only [readDigits, h, if_true, List.length_cons]
      exact Nat.le_succ_of_le (ih _)
    · simp [readDigits, h]

/-- A successful extraction consumes at least one character and leaves the stream good. -/
theorem extractSizeT_shrinks (s s' : IStream) (v : Nat)
    (h : extractSizeT s = (s', some v)) : s'.buf.length < s.buf.length ∧ s'.fail = false := by
  unfold extractSizeT at h
  split at h
  · cases h
  · have hdrop : (s.buf.dropWhile isSpace).length ≤ s.buf.length :=
      (List.dropWhile_sublist _).length_le
    split at h
    · cases h
    · rename_i c cs hc
      rw [hc] at hdrop
      simp only at h
      split at h
      · cases h
      · rename_i d ds hds
        have hlen : (d :: ds).length ≤ (c :: cs).length := by
          rw [← hds]
          split <;> simp
        split at h
        · split at h
          · cases h
            refine ⟨?_, rfl⟩
            have h1 : (readDigits (d :: ds) 0).2.length ≤ ds.length := by
              rename_i hd _
              simp only [readDigits, hd, if_true]
              exact readDigits_length ds _
            simp only [List.length_cons] at hlen hdrop
            show (readDigits (d :: ds) 0).2.length < s.buf.length
            omega
          · cases h
        · cases h

/-- Once the iteration bound is at least the number of unread characters, a larger bound
gives the same edges: the bound used by `LoadGraph` never cuts the loop short. -/
theorem readEdges_fuel (fuel : Nat) :
    ∀ (k : Nat) (s : IStream) (acc : List Edge), s.buf.length ≤ fuel →
      readEdges (fuel + k) s acc = readEdges fuel s acc := by
  induction fuel with
  | zero =>
    intro k s acc hs
    cases k with
    | zero => rfl
    | succ k =>
      have hb : s.buf = [] := List.length_eq_zero.1 (Nat.le_zero.1 hs)
      have : (extractSizeT s).2 = none := by
        unfold extractSizeT
        split
        · rfl
        · simp [hb]
      rw [Nat.zero_add]
      unfold readEdges
      split
      · rfl
      · rename_i heq
        rw [heq] at this
        cases this
  | succ fuel ih =>
    intro k s acc hs
    have hk : fuel + 1 + k = (fuel + k) + 1 := by omega
    rw [hk]
    unfold readEdges
    split
    · rfl
    · rename_i s1 a h1
      have hs1 := (extractSizeT_shrinks s s1 a h1).1
      split
      · rfl
      · rename_i s2 b h2
        have hs2 := (extractSizeT_shrinks s1 s2 b h2).1
        exact ih k s2 _ (by omega)

/-! ## Claims -/

section Claims

variable {R : Type} [Field R]

/-- C8: for every graph with valid edge indices (and a node count that fits `size_t`), one
`TransformGraph` step completes, leaves the number of nodes and the edge sequence unchanged,
and the accumulator has the length of the node vector when it is created, after each of
the three passes, and across every single execution of a loop body. -/
theorem C8_step_preserves_shape (F : MathOps R) (graph : SimpleGraph R)
    (hsize : graph.nodes.length < 2 ^ 64) (hvalid : ValidEdges graph) :
    ∃ nc1 nc2 st,
      CalculateRepulsiveForces F graph (InitializeNodeChanges graph) = some nc1 ∧
      CalculateAttractiveForces F graph nc1 = some nc2 ∧
      UpdateNodeMovements graph nc2 = some st ∧
      TransformGraph F graph = some st.1 ∧
      st.1.nodes.length = graph.nodes.length ∧ st.1.edges = graph.edges ∧
      (InitializeNodeChanges graph).length = graph.nodes.length ∧
      nc1.length = graph.nodes.length ∧ nc2.length = graph.nodes.length ∧
      st.2.length = graph.nodes.length ∧
      (∀ i j v v', repulsiveBody F graph.nodes i j v = some v' → v'.length = v.length) ∧
      (∀ i v v', attractiveBody F graph i v = some v' → v'.length = v.length) ∧
      (∀ i (s s' : SimpleGraph R × List (Node R)), updateBody i s = some s' →
        s'.1.nodes.length = s.1.nodes.length ∧ s'.2.length = s.2.length ∧
          s'.1.edges = s.1.edges) := by
  have h0 : (InitializeNodeChanges graph).length = graph.nodes.length := by
    rw [InitializeNodeChanges_eq]; simp
  obtain ⟨nc1, h1, l1⟩ := CalculateRepulsiveForces_total F graph _ hsize h0
  obtain ⟨nc2, h2, l2, _⟩ := CalculateAttractiveForces_spec F graph nc1 hvalid l1
  obtain ⟨st, h3, he, hn, hc, _, _⟩ := UpdateNodeMovements_spec graph nc2 l2
  exact ⟨nc1, nc2, st, h1, h2, h3, TransformGraph_eq F graph nc1 nc2 st h1 h2 h3, hn, he, h0,
    l1, l2, hc, fun i j v v' h => repulsiveBody_length F graph.nodes v v' i j h,
    fun i v v' h => attractiveBody_length F graph v v' i h,
    fun i s s' h => updateBody_length i s s' h⟩

/-- C8 at the two-node graph with one edge. -/
theorem C8_step_preserves_shape_witness :
    ValidEdges ({ nodes := [⟨-1, 0⟩, ⟨1, 0⟩], edges := [⟨0, 1⟩] } : SimpleGraph ℝ) ∧
    ∃ g', TransformGraph realMath { nodes := [⟨-1, 0⟩, ⟨1, 0⟩], edges := [⟨0, 1⟩] } = some g' ∧
      g'.nodes.length = 2 ∧ g'.edges = [⟨0, 1⟩] := by
  have hv : ValidEdges ({ nodes := [⟨-1, 0⟩, ⟨1, 0⟩], edges := [⟨0, 1⟩] } : SimpleGraph ℝ) := by
    simp [ValidEdges]
  obtain ⟨_, _, st, _, _, _, h, hn, he, _⟩ :=
    C8_step_preserves_shape realMath { nodes := [⟨-1, 0⟩, ⟨1, 0⟩], edges := [⟨0, 1⟩] }
      (by simp) hv
  exact ⟨hv, st.1, h, hn, he⟩

/-- C9: one `TransformGraph` step on a graph with exactly one node and no edges returns the
same graph: the node does not move. -/
theorem C9_single_node_fixed (F : MathOps R) (p : Node R) :
    TransformGraph F { nodes := [p], edges := [] } = some { nodes := [p], edges := [] } := by
  have hs : sizeSub 1 1 = 0 := by rw [sizeSub_one_of_pos (by omega) (by omega)]
  have h1 : CalculateRepulsiveForces F { nodes := [p], edges := [] }
      (InitializeNodeChanges { nodes := [p], edges := [] }) = some [⟨0, 0⟩] := by
    simp only [CalculateRepulsiveForces, repulsiveLoops, forRange, List.length_singleton, hs]
    rfl
  have h2 : CalculateAttractiveForces F { nodes := [p], edges := [] } [⟨0, 0⟩]
      = some [⟨0, 0⟩] := rfl
  have h3 : UpdateNodeMovements { nodes := [p], edges := [] } [⟨0, 0⟩]
      = some ({ nodes := [⟨p.x + 0, p.y + 0⟩], edges := [] }, [⟨0, 0⟩]) := rfl
  rw [TransformGraph_eq F _ _ _ _ h1 h2 h3]
  simp

/-- A loop whose body only advances a counter advances it once per iteration. -/
theorem forLoop_count : ∀ (count lo c : Nat),
    forLoop (fun _ k => some (k + 1)) count lo c = some (c + count) := by
  intro count
  induction count with
  | zero => intro lo c; rfl
  | succ n ih =>
    intro lo c
    show forLoop (fun _ k => some (k + 1)) n (lo + 1) (c + 1) = some (c + (n + 1))
    rw [ih]
    congr 1
    omega

/-- C10: on the empty graph the bound `graph.nodes.size() - 1` of the outer repulsive loop
is `18446744073709551615`, that is `2 ^ 64 - 1`: `CalculateRepulsiveForces` is a loop of
that many outer iterations over `nodeIndex0 = 0, 1, ...`, a counter advanced once per outer
iteration ends at `18446744073709551615`, and each outer iteration runs an inner loop of no
iteration (hence no node and no accumulator entry is read or written).  A step of
`TransformGraph` on the empty graph spends these `2 ^ 64 - 1` iterations before it can
return. -/
theorem C10_empty_graph_outer_loop (F : MathOps R) :
    sizeSub ({ nodes := [], edges := [] } : SimpleGraph R).nodes.length 1
      = 18446744073709551615 ∧
    CalculateRepulsiveForces F { nodes := [], edges := [] } []
      = forLoop (fun nodeIndex0 => forRange (nodeIndex0 + 1) 0 (repulsiveBody F [] nodeIndex0))
          18446744073709551615 0 [] ∧
    forRange 0 (sizeSub ({ nodes := [], edges := [] } : SimpleGraph R).nodes.length 1)
      (fun _ count => some (count + 1)) 0 = some 18446744073709551615 ∧
    ∀ (nodeIndex0 : Nat) (nodeChanges : List (Node R)),
      forRange (nodeIndex0 + 1) 0 (repulsiveBody F [] nodeIndex0) nodeChanges
        = some nodeChanges := by
  have hs : sizeSub 0 1 = 18446744073709551615 := by
    rw [sizeSub_zero_one]
    norm_num
  refine ⟨hs, ?_, ?_, ?_⟩
  · simp only [CalculateRepulsiveForces, repulsiveLoops, forRange, List.length_nil, hs,
      Nat.sub_zero]
  · simp only [forRange, List.length_nil, Nat.sub_zero, forLoop_count, hs, Nat.zero_add]
  · intro nodeIndex0 nodeChanges
    simp only [forRange, Nat.zero_sub]
    rfl

/-- C1: on two nodes at distinct positions joined by the single edge `(0, 1)`, one
`TransformGraph` step moves node 0 by `(kAttract * d² - kRepel / d) * (cos t, sin t)` and
node 1 by the negation, `d` the distance and `t` the angle from node 0 to node 1, in exact
real arithmetic.  (Distinct positions keep the statement where the real-number model and
the program agree: at coincident nodes the program divides by zero.) -/
theorem C1_two_node_step (p0 p1 : Node ℝ) (_hne : p0 ≠ p1) :
    TransformGraph realMath { nodes := [p0, p1], edges := [⟨0, 1⟩] } =
      some {
        nodes :=
          [⟨p0.x + (kAttract * distance p0 p1 ^ 2 - kRepel / distance p0 p1)
              * Real.cos (direction p0 p1),
            p0.y + (kAttract * distance p0 p1 ^ 2 - kRepel / distance p0 p1)
              * Real.sin (direction p0 p1)⟩,
           ⟨p1.x - (kAttract * distance p0 p1 ^ 2 - kRepel / distance p0 p1)
              * Real.cos (direction p0 p1),
            p1.y - (kAttract * distance p0 p1 ^ 2 - kRepel / distance p0 p1)
              * Real.sin (direction p0 p1)⟩],
        edges := [⟨0, 1⟩] } := by
  have hs : sizeSub 2 1 = 1 := by rw [sizeSub_one_of_pos (by omega) (by omega)]
  have hq : 0 ≤ (p1.x - p0.x) * (p1.x - p0.x) + (p1.y - p0.y) * (p1.y - p0.y) :=
    add_nonneg (mul_self_nonneg _) (mul_self_nonneg _)
  set X := CalculateXForce realMath (CalculateFRepel realMath p0.x p1.x p0.y p1.y)
    (CalculateRadiansAngle realMath p0.x p1.x p0.y p1.y) with hX
  set Y := CalculateYForce realMath (CalculateFRepel realMath p0.x p1.x p0.y p1.y)
    (CalculateRadiansAngle realMath p0.x p1.x p0.y p1.y) with hY
  set U := CalculateXForce realMath (CalculateFAttract p0.x p1.x p0.y p1.y)
    (CalculateRadiansAngle realMath p0.x p1.x p0.y p1.y) with hU
  set V := CalculateYForce realMath (CalculateFAttract p0.x p1.x p0.y p1.y)
    (CalculateRadiansAngle realMath p0.x p1.x p0.y p1.y) with hV
  have h1 : CalculateRepulsiveForces realMath { nodes := [p0, p1], edges := [⟨0, 1⟩] }
      (InitializeNodeChanges { nodes := [p0, p1], edges := [⟨0, 1⟩] })
      = some [⟨0 - X, 0 - Y⟩, ⟨0 + X, 0 + Y⟩] := by
    simp only [CalculateRepulsiveForces, repulsiveLoops, forRange, List.length_cons,
      List.length_nil, List.length_singleton, Nat.zero_add, Nat.reduceAdd, hs]
    rfl
  have h2 : CalculateAttractiveForces realMath { nodes := [p0, p1], edges := [⟨0, 1⟩] }
      [⟨0 - X, 0 - Y⟩, ⟨0 + X, 0 + Y⟩]
      = some [⟨0 - X + U, 0 - Y + V⟩, ⟨0 + X - U, 0 + Y - V⟩] := rfl
  have h3 : UpdateNodeMovements { nodes := [p0, p1], edges := [⟨0, 1⟩] }
      [⟨0 - X + U, 0 - Y + V⟩, ⟨0 + X - U, 0 + Y - V⟩]
      = some ({ nodes := [⟨p0.x + (0 - X + U), p0.y + (0 - Y + V)⟩,
                          ⟨p1.x + (0 + X - U), p1.y + (0 + Y - V)⟩],
                edges := [⟨0, 1⟩] }, [⟨0, 0⟩, ⟨0, 0⟩]) := rfl
  rw [TransformGraph_eq realMath _ _ _ _ h1 h2 h3]
  have hd : distance p0 p1 ^ 2 = (p1.x - p0.x) * (p1.x - p0.x) + (p1.y - p0.y) * (p1.y - p0.y) := by
    unfold distance
    rw [Real.sq_sqrt (by positivity)]
    ring
  have hXv : X = kRepel / distance p0 p1 * Real.cos (direction p0 p1) := by
    simp only [hX, CalculateXForce, CalculateFRepel, CalculateRadiansAngle, distance, direction,
      realMath, pow_two]
  have hYv : Y = kRepel / distance p0 p1 * Real.sin (direction p0 p1) := by
    simp only [hY, CalculateYForce, CalculateFRepel, CalculateRadiansAngle, distance, direction,
      realMath, pow_two]
  have hUv : U = kAttract * distance p0 p1 ^ 2 * Real.cos (direction p0 p1) := by
    rw [hd]
    simp only [hU, CalculateXForce, CalculateFAttract, CalculateRadiansAngle, direction,
      realMath]
  have hVv : V = kAttract * distance p0 p1 ^ 2 * Real.sin (direction p0 p1) := by
    rw [hd]
    simp only [hV, CalculateYForce, CalculateFAttract, CalculateRadiansAngle, direction,
      realMath]
  rw [hXv, hYv, hUv, hVv]
  simp only [Option.some.injEq, SimpleGraph.mk.injEq, List.cons.injEq, Node.mk.injEq, and_true]
  refine ⟨⟨?_, ?_⟩, ⟨?_, ?_⟩⟩ <;> ring

/-- C1 from `(-1, 0)` and `(1, 0)`: the new positions are `(-0.965, 0)` and `(0.965, 0)`. -/
theorem C1_two_node_step_witness :
    (⟨-1, 0⟩ : Node ℝ) ≠ ⟨1, 0⟩ ∧
    TransformGraph realMath { nodes := [⟨-1, 0⟩, ⟨1, 0⟩], edges := [⟨0, 1⟩] } =
      some { nodes := [⟨-0.965, 0⟩, ⟨0.965, 0⟩], edges := [⟨0, 1⟩] } := by
  have hne : (⟨-1, 0⟩ : Node ℝ) ≠ ⟨1, 0⟩ := by
    intro h
    have hx := congrArg Node.x h
    norm_num at hx
  refine ⟨hne, ?_⟩
  have h := C1_two_node_step ⟨-1, 0⟩ ⟨1, 0⟩ hne
  have hdist : distance ⟨-1, 0⟩ ⟨1, 0⟩ = 2 := by
    unfold distance
    rw [show ((1 : ℝ) - -1) ^ 2 + ((0 : ℝ) - 0) ^ 2 = 2 ^ 2 by norm_num]
    exact Real.sqrt_sq (by norm_num)
  have hdir : direction ⟨-1, 0⟩ ⟨1, 0⟩ = 0 := by
    unfold direction realMath
    have : (⟨(1 : ℝ) - -1, (0 : ℝ) - 0⟩ : ℂ) = ((2 : ℝ) : ℂ) := by
      apply Complex.ext <;> norm_num
    show Complex.arg ⟨(1 : ℝ) - -1, (0 : ℝ) - 0⟩ = 0
    rw [this]
    exact Complex.arg_ofReal_of_nonneg (by norm_num)
  rw [hdist, hdir] at h
  rw [h]
  simp only [Option.some.injEq, SimpleGraph.mk.injEq, List.cons.injEq, Node.mk.injEq, and_true,
    kAttract, kRepel, Real.cos_zero, Real.sin_zero]
  norm_num

/-- C4: loading the text made of a node count `n` and `k` pairs of indices (all below
`2 ^ 64`, written in decimal and separated by white space) yields exactly `n` nodes and
exactly the `k` pairs as edges `(start, end)`, in file order, duplicates included. -/
theorem C4_load_graph_text (F : MathOps R) (lead trail : List Char) (n : Nat)
    (entries : List EdgeText) (hlead : ∀ c ∈ lead, isSpace c = true)
    (htrail : ∀ c ∈ trail, isSpace c = true) (hn : n < 2 ^ 64)
    (hgaps : ∀ t ∈ entries, IsGap t.lead ∧ IsGap t.mid)
    (hvals : ∀ t ∈ entries, t.start < 2 ^ 64 ∧ t.stop < 2 ^ 64) :
    (LoadGraph F (graphText lead n entries trail)).nodes.length = n ∧
    (LoadGraph F (graphText lead n entries trail)).edges.length = entries.length ∧
    (LoadGraph F (graphText lead n entries trail)).edges
      = entries.map (fun t => { start := t.start, «end» := t.stop }) := by
  rw [LoadGraph_graphText F lead trail n entries hlead htrail hn hgaps hvals]
  simp

/-- C4 at the file `3`, `0 1`, `1 2`, `2 0` (one line each): three nodes and the edges
`(0,1)`, `(1,2)`, `(2,0)` in that order. -/
theorem C4_load_graph_text_witness :
    (LoadGraph realMath "3\n0 1\n1 2\n2 0\n".toList).nodes.length = 3 ∧
    (LoadGraph realMath "3\n0 1\n1 2\n2 0\n".toList).edges.length = 3 ∧
    (LoadGraph realMath "3\n0 1\n1 2\n2 0\n".toList).edges = [⟨0, 1⟩, ⟨1, 2⟩, ⟨2, 0⟩] := by
  have htext : "3\n0 1\n1 2\n2 0\n".toList = graphText [] 3
      [⟨"\n".toList, 0, " ".toList, 1⟩, ⟨"\n".toList, 1, " ".toList, 2⟩,
        ⟨"\n".toList, 2, " ".toList, 0⟩] "\n".toList := by decide
  rw [htext]
  exact C4_load_graph_text realMath [] "\n".toList 3 _ (by decide) (by decide) (by decide)
    (by simp [IsGap, isSpace]) (by simp)

/-- C5, as stated, fails: the first token of `3x` is not an unsigned integer, yet the
loaded graph has three nodes. -/
theorem C5_counterexample :
    firstToken "3x 0 1".toList = "3x".toList ∧ ¬ IsUnsignedToken "3x".toList ∧
    (LoadGraph realMath "3x 0 1".toList).nodes.length = 3 ∧
    (LoadGraph realMath "3x 0 1".toList).edges = [] := by
  refine ⟨by decide, ?_, by decide, by decide⟩
  rintro ⟨_, h⟩
  exact absurd (h 'x' (by decide)) (by decide)

/-- C5, amended: when the text, after its leading white space, is exhausted or does not
begin with a digit or with a sign followed by a digit, loading returns the graph with no
node and no edge, whatever follows. -/
theorem C5_load_rejects_non_number (F : MathOps R) (file : List Char)
    (h : beginsNumber (file.dropWhile isSpace) = false) :
    LoadGraph F file = { nodes := [], edges := [] } := by
  have hx : (extractSizeT { buf := file, fail := false }).2 = none := by
    unfold extractSizeT
    simp only [Bool.false_eq_true, if_false]
    cases hd : file.dropWhile isSpace with
    | nil => rfl
    | cons c cs =>
      rw [hd] at h
      simp only [beginsNumber] at h
      by_cases hs : c = '-' ∨ c = '+'
      · have hs' : c = '+' ∨ c = '-' := hs.symm
        simp only [hs, hs', if_true] at h ⊢
        cases cs with
        | nil => rfl
        | cons d ds =>
          simp only at h
          simp [h]
      · have hs' : ¬ (c = '+' ∨ c = '-') := fun h' => hs h'.symm
        simp only [hs, hs', if_false] at h ⊢
        simp [h]
  unfold LoadGraph
  split
  · rfl
  · rename_i heq
    rw [heq] at hx
    cases hx

/-- C5 amended, at a file that starts with a letter. -/
theorem C5_load_rejects_non_number_witness :
    beginsNumber ("x 0 1".toList.dropWhile isSpace) = false ∧
    LoadGraph realMath "x 0 1".toList = { nodes := [], edges := [] } :=
  ⟨by decide, C5_load_rejects_non_number realMath "x 0 1".toList (by decide)⟩

/-- C6, as stated, fails: the file `3`, `0 7` loads the edge `(0, 7)` into a graph of three
nodes. -/
theorem C6_counterexample :
    (LoadGraph realMath "3\n0 7\n".toList).nodes.length = 3 ∧
    (LoadGraph realMath "3\n0 7\n".toList).edges = [⟨0, 7⟩] ∧
    ¬ ValidEdges (LoadGraph realMath "3\n0 7\n".toList) := by
  have h1 : (LoadGraph realMath "3\n0 7\n".toList).nodes.length = 3 := by decide
  have h2 : (LoadGraph realMath "3\n0 7\n".toList).edges = [⟨0, 7⟩] := by decide
  refine ⟨h1, h2, ?_⟩
  intro hv
  have h7 : 7 < (LoadGraph realMath "3\n0 7\n".toList).nodes.length :=
    (hv ⟨0, 7⟩ (by rw [h2]; exact List.mem_cons_self _ _)).2
  rw [h1] at h7
  omega

/-- C6, amended: loading copies the pairs of the file without a range check, so the edges
of the loaded graph are valid indices whenever every index written in the file is below
the node count written in the file. -/
theorem C6_load_valid_edges (F : MathOps R) (lead trail : List Char) (n : Nat)
    (entries : List EdgeText) (hlead : ∀ c ∈ lead, isSpace c = true)
    (htrail : ∀ c ∈ trail, isSpace c = true) (hn : n < 2 ^ 64)
    (hgaps : ∀ t ∈ entries, IsGap t.lead ∧ IsGap t.mid)
    (hvals : ∀ t ∈ entries, t.start < n ∧ t.stop < n) :
    ValidEdges (LoadGraph F (graphText lead n entries trail)) := by
  rw [LoadGraph_graphText F lead trail n entries hlead htrail hn hgaps
    (fun t ht => ⟨by have := hvals t ht; omega, by have := hvals t ht; omega⟩)]
  intro e he
  simp only [List.mem_map] at he
  obtain ⟨t, ht, rfl⟩ := he
  simpa using hvals t ht

/-- C6 amended, at the file `3`, `0 1`, `1 2`, `2 0`. -/
theorem C6_load_valid_edges_witness :
    ValidEdges (LoadGraph realMath "3\n0 1\n1 2\n2 0\n".toList) := by
  have htext : "3\n0 1\n1 2\n2 0\n".toList = graphText [] 3
      [⟨"\n".toList, 0, " ".toList, 1⟩, ⟨"\n".toList, 1, " ".toList, 2⟩,
        ⟨"\n".toList, 2, " ".toList, 0⟩] "\n".toList := by decide
  rw [htext]
  exact C6_load_valid_edges realMath [] "\n".toList 3 _ (by decide) (by decide) (by decide)
    (by simp [IsGap, isSpace]) (by simp)

/-! ### Shared facts on one full step -/

/-- Two vectors of the same length with the same entries are equal. -/
theorem eq_of_entry (v w : List (Node R)) (hl : v.length = w.length)
    (he : ∀ k, entry v k = entry w k) : v = w := by
  apply List.ext_getElem hl
  intro k h1 h2
  have := he k
  rw [entry_of_lt v k h1, entry_of_lt w k h2] at this
  exact Node.ext (congrArg Prod.fst this) (congrArg Prod.snd this)

/-- The attractive part of an accumulator entry as a sum over the edge list. -/
theorem attractive_sum_form (F : MathOps R) (nodes : List (Node R)) (edges : List Edge)
    (k : Nat) :
    (((edges.filter (fun e => decide (e.start = k))).map
        (fun e => attractiveDelta F (nodeAt nodes e.start) (nodeAt nodes e.end))).sum)
      - (((edges.filter (fun e => decide (e.end = k))).map
        (fun e => attractiveDelta F (nodeAt nodes e.start) (nodeAt nodes e.end))).sum)
      = (edges.map (edgeDelta F nodes k)).sum := by
  rw [← sum_map_ite_eq_filter, ← sum_map_ite_eq_filter, ← sum_map_sub_eq]
  rfl

/-- One step completes on a graph with valid edges and moves node `k` by its repulsive
accumulator entry plus the sum of the edge deltas. -/
theorem TransformGraph_entries (F : MathOps R) (graph : SimpleGraph R)
    (hsize : graph.nodes.length < 2 ^ 64) (hvalid : ValidEdges graph) :
    ∃ nc1 nc2 g',
      CalculateRepulsiveForces F graph (InitializeNodeChanges graph) = some nc1 ∧
      nc1.length = graph.nodes.length ∧
      CalculateAttractiveForces F graph nc1 = some nc2 ∧
      nc2.length = graph.nodes.length ∧
      (∀ k, entry nc2 k = entry nc1 k + (graph.edges.map (edgeDelta F graph.nodes k)).sum) ∧
      TransformGraph F graph = some g' ∧ g'.edges = graph.edges ∧
      g'.nodes.length = graph.nodes.length ∧
      ∀ k, entry g'.nodes k = entry graph.nodes k + entry nc2 k := by
  have h0 : (InitializeNodeChanges graph).length = graph.nodes.length := by
    rw [InitializeNodeChanges_eq]; simp
  obtain ⟨nc1, h1, l1⟩ := CalculateRepulsiveForces_total F graph _ hsize h0
  obtain ⟨nc2, h2, l2, e2⟩ := CalculateAttractiveForces_spec F graph nc1 hvalid l1
  obtain ⟨st, h3, he, hn, _, e3, _⟩ := UpdateNodeMovements_spec graph nc2 l2
  refine ⟨nc1, nc2, st.1, h1, l1, h2, l2, ?_, TransformGraph_eq F graph nc1 nc2 st h1 h2 h3,
    he, hn, e3⟩
  intro k
  rw [e2 k, attractive_sum_form]

/-- An attractive delta between a node and itself is zero. -/
theorem attractiveDelta_self (F : MathOps R) (a : Node R) : attractiveDelta F a a = 0 := by
  simp [attractiveDelta, CalculateXForce, CalculateYForce, CalculateFAttract]

theorem edgeDelta_self (F : MathOps R) (nodes : List (Node R)) (k : Nat) (e : Edge)
    (h : e.start = e.end) : edgeDelta F nodes k e = 0 := by
  unfold edgeDelta
  rw [h]
  exact sub_self _

/-- Self-loops do not contribute to the sum of the edge deltas. -/
theorem sum_edgeDelta_filter (F : MathOps R) (nodes : List (Node R)) (k : Nat)
    (edges : List Edge) :
    (edges.map (edgeDelta F nodes k)).sum
      = ((edges.filter properEdge).map (edgeDelta F nodes k)).sum := by
  induction edges with
  | nil => rfl
  | cons e t ih =>
    by_cases h : e.start = e.end
    · have hp : properEdge e = false := by simp [properEdge, h]
      simp [List.filter_cons, hp, ih, edgeDelta_self F nodes k e h]
    · have hp : properEdge e = true := by simp [properEdge, h]
      simp [List.filter_cons, hp, ih]

/-- C14: for every graph with `n` nodes, `InitializeNodeChanges` returns a vector of exactly
`n` entries, each of which is `(0, 0)`. -/
theorem C14_initialize_node_changes (graph : SimpleGraph R) :
    (InitializeNodeChanges graph).length = graph.nodes.length ∧
    ∀ c ∈ InitializeNodeChanges graph, c = ({ x := 0, y := 0 } : Node R) := by
  rw [InitializeNodeChanges_eq]
  exact ⟨List.length_replicate _ _, fun c hc => List.eq_of_mem_replicate hc⟩

/-- C20: a self-loop on a valid node index has attractive delta `(0, 0)` and its loop
iteration leaves every accumulator entry as it was; hence two edge lists on the same nodes
that differ only by self-loops give the same node positions after one `TransformGraph`
step. -/
theorem C20_self_loops (F : MathOps R) (nodes : List (Node R)) (edges1 edges2 : List Edge)
    (hsize : nodes.length < 2 ^ 64)
    (hv1 : ValidEdges { nodes := nodes, edges := edges1 })
    (hv2 : ValidEdges { nodes := nodes, edges := edges2 })
    (hsame : edges1.filter properEdge = edges2.filter properEdge) :
    (∀ a : Node R, attractiveDelta F a a = 0) ∧
    (∀ (i : Nat) (e : Edge) (nc : List (Node R)), edges1[i]? = some e → e.start = e.end →
      nc.length = nodes.length →
      ∃ nc', attractiveBody F { nodes := nodes, edges := edges1 } i nc = some nc' ∧
        ∀ k, entry nc' k = entry nc k) ∧
    ∃ g1 g2, TransformGraph F { nodes := nodes, edges := edges1 } = some g1 ∧
      TransformGraph F { nodes := nodes, edges := edges2 } = some g2 ∧
      g1.nodes = g2.nodes := by
  refine ⟨attractiveDelta_self F, ?_, ?_⟩
  · intro i e nc hi hself hlen
    have hmem : e ∈ edges1 := List.getElem?_mem hi
    have hv := hv1 e hmem
    obtain ⟨nc', h, _, he⟩ := attractiveBody_spec F { nodes := nodes, edges := edges1 } nc i e
      hi hv.1 hv.2 hlen
    refine ⟨nc', h, fun k => ?_⟩
    rw [he k, hself, sub_self, add_zero]
  · obtain ⟨nc1, nc2, g1, hr1, _, _, _, ha1, ht1, _, hn1, hp1⟩ :=
      TransformGraph_entries F { nodes := nodes, edges := edges1 } hsize hv1
    obtain ⟨nc1', nc2', g2, hr2, _, _, _, ha2, ht2, _, hn2, hp2⟩ :=
      TransformGraph_entries F { nodes := nodes, edges := edges2 } hsize hv2
    have hsame1 : nc1 = nc1' := by
      have : CalculateRepulsiveForces F { nodes := nodes, edges := edges1 }
          (InitializeNodeChanges { nodes := nodes, edges := edges1 })
          = CalculateRepulsiveForces F { nodes := nodes, edges := edges2 }
          (InitializeNodeChanges { nodes := nodes, edges := edges2 }) := rfl
      rw [hr1, hr2] at this
      exact Option.some.inj this
    refine ⟨g1, g2, ht1, ht2, eq_of_entry _ _ (by rw [hn1, hn2]) (fun k => ?_)⟩
    rw [hp1 k, hp2 k, ha1 k, ha2 k, hsame1]
    show _ + (_ + (edges1.map (edgeDelta F nodes k)).sum)
      = _ + (_ + (edges2.map (edgeDelta F nodes k)).sum)
    rw [sum_edgeDelta_filter F nodes k edges1, sum_edgeDelta_filter F nodes k edges2, hsame]

/-- C20 at two nodes: the edge lists `(0,1), (1,1)` and `(0,1)` give the same positions. -/
theorem C20_self_loops_witness :
    ∃ g1 g2, TransformGraph realMath { nodes := [⟨-1, 0⟩, ⟨1, 0⟩], edges := [⟨0, 1⟩, ⟨1, 1⟩] }
        = some g1 ∧
      TransformGraph realMath { nodes := [⟨-1, 0⟩, ⟨1, 0⟩], edges := [⟨0, 1⟩] } = some g2 ∧
      g1.nodes = g2.nodes :=
  (C20_self_loops realMath [⟨-1, 0⟩, ⟨1, 0⟩] [⟨0, 1⟩, ⟨1, 1⟩] [⟨0, 1⟩] (by simp)
    (by simp [ValidEdges]) (by simp [ValidEdges]) (by decide)).2.2

/-- Summed over all nodes, the repulsion received from lower-indexed nodes equals the
repulsion exerted on higher-indexed nodes: every pair is counted once on each side. -/
theorem pair_sum_total {M : Type} [AddCommMonoid M] (r : Nat → Nat → M) (n : Nat) :
    (∑ k ∈ Finset.range n, ∑ i ∈ Finset.range k, r i k)
      = ∑ k ∈ Finset.range n, ∑ j ∈ Finset.Ico (k + 1) n, r k j := by
  induction n with
  | zero => simp
  | succ n ih =>
    rw [Finset.sum_range_succ, Finset.sum_range_succ, ih]
    have h1 : ∀ k ∈ Finset.range n, (∑ j ∈ Finset.Ico (k + 1) (n + 1), r k j)
        = (∑ j ∈ Finset.Ico (k + 1) n, r k j) + r k n := by
      intro k hk
      rw [Finset.sum_Ico_succ_top (by have := Finset.mem_range.1 hk; omega)]
    rw [Finset.sum_congr rfl h1, Finset.sum_add_distrib]
    simp

/-- Summed over all nodes, the deltas of one valid edge cancel. -/
theorem sum_edgeDelta_nodes (F : MathOps R) (nodes : List (Node R)) (e : Edge)
    (hs : e.start < nodes.length) (ht : e.end < nodes.length) :
    ∑ k ∈ Finset.range nodes.length, edgeDelta F nodes k e = 0 := by
  unfold edgeDelta
  rw [Finset.sum_sub_distrib, Finset.sum_ite_eq, Finset.sum_ite_eq]
  simp [hs, ht]

theorem sum_edges_nodes (F : MathOps R) (nodes : List (Node R)) (edges : List Edge)
    (hv : ∀ e ∈ edges, e.start < nodes.length ∧ e.end < nodes.length) :
    ∑ k ∈ Finset.range nodes.length, (edges.map (edgeDelta F nodes k)).sum = 0 := by
  induction edges with
  | nil => simp
  | cons e t ih =>
    simp only [List.map_cons, List.sum_cons, Finset.sum_add_distrib]
    rw [sum_edgeDelta_nodes F nodes e (hv e (List.mem_cons_self _ _)).1
      (hv e (List.mem_cons_self _ _)).2, ih (fun u hu => hv u (List.mem_cons_of_mem _ hu))]
    exact add_zero _

/-- The entries the repulsive pass leaves in an all-zero accumulator sum to zero. -/
theorem repulsive_total (F : MathOps R) (graph : SimpleGraph R)
    (hsize : graph.nodes.length < 2 ^ 64) (nc1 : List (Node R))
    (h : CalculateRepulsiveForces F graph (InitializeNodeChanges graph) = some nc1) :
    ∑ k ∈ Finset.range graph.nodes.length, entry nc1 k = 0 := by
  rcases Nat.eq_zero_or_pos graph.nodes.length with h0 | h0
  · rw [h0]; simp
  · obtain ⟨nc', h', _, he⟩ := CalculateRepulsiveForces_spec F graph
      (InitializeNodeChanges graph) h0 hsize (by rw [InitializeNodeChanges_eq]; simp)
    rw [h] at h'
    cases h'
    have hk : ∀ k ∈ Finset.range graph.nodes.length, entry nc1 k
        = (∑ i ∈ Finset.range k, repulsion F (nodeAt graph.nodes i) (nodeAt graph.nodes k))
          - ∑ j ∈ Finset.Ico (k + 1) graph.nodes.length,
              repulsion F (nodeAt graph.nodes k) (nodeAt graph.nodes j) := by
      intro k hk
      rw [he k (Finset.mem_range.1 hk), entry_InitializeNodeChanges, zero_add]
    rw [Finset.sum_congr rfl hk, Finset.sum_sub_distrib,
      pair_sum_total (fun i j => repulsion F (nodeAt graph.nodes i) (nodeAt graph.nodes j)),
      sub_self]

/-- C19: on a graph with valid edge indices and pairwise distinct node positions, the
accumulator entries after the repulsive and the attractive pass sum to `(0, 0)`, and one
`TransformGraph` step leaves the sum of all node positions unchanged.  Holds over every
field; the node count is a `size_t`, and distinct positions keep the statement where the
field model and the program agree (no division by zero). -/
theorem C19_centroid_fixed (F : MathOps R) (graph : SimpleGraph R)
    (hsize : graph.nodes.length < 2 ^ 64) (hvalid : ValidEdges graph)
    (_hdistinct : graph.nodes.Nodup) :
    ∃ nc1 nc2 g',
      CalculateRepulsiveForces F graph (InitializeNodeChanges graph) = some nc1 ∧
      CalculateAttractiveForces F graph nc1 = some nc2 ∧
      TransformGraph F graph = some g' ∧
      (∑ k ∈ Finset.range graph.nodes.length, entry nc2 k) = 0 ∧
      g'.nodes.length = graph.nodes.length ∧
      (∑ k ∈ Finset.range graph.nodes.length, entry g'.nodes k)
        = ∑ k ∈ Finset.range graph.nodes.length, entry graph.nodes k := by
  obtain ⟨nc1, nc2, g', hr, _, ha, _, he2, ht, _, hn, hp⟩ :=
    TransformGraph_entries F graph hsize hvalid
  have hzero : (∑ k ∈ Finset.range graph.nodes.length, entry nc2 k) = 0 := by
    simp only [he2, Finset.sum_add_distrib]
    rw [repulsive_total F graph hsize nc1 hr, sum_edges_nodes F graph.nodes graph.edges hvalid,
      add_zero]
  refine ⟨nc1, nc2, g', hr, ha, ht, hzero, hn, ?_⟩
  simp only [hp, Finset.sum_add_distrib]
  rw [hzero, add_zero]

/-- C19 at a triangle with its three edges: the sum of the positions is still `(1, 1)`. -/
theorem C19_centroid_fixed_witness :
    ∃ g', TransformGraph realMath
        { nodes := [⟨0, 0⟩, ⟨1, 0⟩, ⟨0, 1⟩], edges := [⟨0, 1⟩, ⟨1, 2⟩, ⟨2, 0⟩] } = some g' ∧
      entry g'.nodes 0 + entry g'.nodes 1 + entry g'.nodes 2 = (1, 1) := by
  obtain ⟨_, _, g', _, _, ht, _, _, hs⟩ := C19_centroid_fixed realMath
    { nodes := [⟨0, 0⟩, ⟨1, 0⟩, ⟨0, 1⟩], edges := [⟨0, 1⟩, ⟨1, 2⟩, ⟨2, 0⟩] } (by simp)
    (by simp [ValidEdges]) (by simp [Node.ext_iff])
  refine ⟨g', ht, ?_⟩
  simp only [List.length_cons, List.length_nil, Nat.zero_add, Nat.reduceAdd,
    Finset.sum_range_succ, Finset.sum_range_zero, zero_add] at hs
  rw [hs]
  simp [entry]

/-- In exact arithmetic the cosine and sine of the angle from `a` to `b` are the coordinate
differences divided by the distance. -/
theorem cos_sin_direction (a b : Node ℝ) (hne : a ≠ b) :
    0 < distance a b ∧
    Real.cos (direction a b) = (b.x - a.x) / distance a b ∧
    Real.sin (direction a b) = (b.y - a.y) / distance a b := by
  have hz : (⟨b.x - a.x, b.y - a.y⟩ : ℂ) ≠ 0 := by
    intro h
    apply hne
    have h1 := congrArg Complex.re h
    have h2 := congrArg Complex.im h
    simp only [Complex.zero_re, Complex.zero_im] at h1 h2
    exact Node.ext (by linarith) (by linarith)
  have habs : Complex.abs ⟨b.x - a.x, b.y - a.y⟩ = distance a b := by
    rw [Complex.abs_apply, Complex.normSq_apply]
    unfold distance
    congr 1
    ring
  refine ⟨?_, ?_, ?_⟩
  · rw [← habs]; exact Complex.abs.pos hz
  · show Real.cos (Complex.arg ⟨b.x - a.x, b.y - a.y⟩) = _
    rw [Complex.cos_arg hz, habs]
  · show Real.sin (Complex.arg ⟨b.x - a.x, b.y - a.y⟩) = _
    rw [Complex.sin_arg, habs]

/-- C17: on two nodes at distinct positions and no edge, one `TransformGraph` step replaces
the difference `p1 - p0` by `(1 + 2 * kRepel / d²) * (p1 - p0)`, `d` the distance before the
step, and the distance strictly increases (exact real arithmetic). -/
theorem C17_two_nodes_repel (p0 p1 : Node ℝ) (hne : p0 ≠ p1) :
    ∃ q0 q1 : Node ℝ,
      TransformGraph realMath { nodes := [p0, p1], edges := [] }
        = some { nodes := [q0, q1], edges := [] } ∧
      q1.x - q0.x = (1 + 2 * kRepel / distance p0 p1 ^ 2) * (p1.x - p0.x) ∧
      q1.y - q0.y = (1 + 2 * kRepel / distance p0 p1 ^ 2) * (p1.y - p0.y) ∧
      distance p0 p1 < distance q0 q1 := by
  have hs : sizeSub 2 1 = 1 := by rw [sizeSub_one_of_pos (by omega) (by omega)]
  set X := CalculateXForce realMath (CalculateFRepel realMath p0.x p1.x p0.y p1.y)
    (CalculateRadiansAngle realMath p0.x p1.x p0.y p1.y) with hX
  set Y := CalculateYForce realMath (CalculateFRepel realMath p0.x p1.x p0.y p1.y)
    (CalculateRadiansAngle realMath p0.x p1.x p0.y p1.y) with hY
  have h1 : CalculateRepulsiveForces realMath { nodes := [p0, p1], edges := [] }
      (InitializeNodeChanges { nodes := [p0, p1], edges := [] })
      = some [⟨0 - X, 0 - Y⟩, ⟨0 + X, 0 + Y⟩] := by
    simp only [CalculateRepulsiveForces, repulsiveLoops, forRange, List.length_cons,
      List.length_nil, List.length_singleton, Nat.zero_add, Nat.reduceAdd, hs]
    rfl
  have h2 : CalculateAttractiveForces realMath { nodes := [p0, p1], edges := [] }
      [⟨0 - X, 0 - Y⟩, ⟨0 + X, 0 + Y⟩] = some [⟨0 - X, 0 - Y⟩, ⟨0 + X, 0 + Y⟩] := rfl
  have h3 : UpdateNodeMovements { nodes := [p0, p1], edges := [] }
      [⟨0 - X, 0 - Y⟩, ⟨0 + X, 0 + Y⟩]
      = some ({ nodes := [⟨p0.x + (0 - X), p0.y + (0 - Y)⟩, ⟨p1.x + (0 + X), p1.y + (0 + Y)⟩],
                edges := [] }, [⟨0, 0⟩, ⟨0, 0⟩]) := rfl
  obtain ⟨hd, hcos, hsin⟩ := cos_sin_direction p0 p1 hne
  have hd0 : distance p0 p1 ≠ 0 := ne_of_gt hd
  have hXv : X = kRepel / distance p0 p1 ^ 2 * (p1.x - p0.x) := by
    have : X = kRepel / distance p0 p1 * Real.cos (direction p0 p1) := by
      simp only [hX, CalculateXForce, CalculateFRepel, CalculateRadiansAngle, distance,
        direction, realMath, pow_two]
    rw [this, hcos, div_mul_div_comm, ← pow_two, mul_div_right_comm]
  have hYv : Y = kRepel / distance p0 p1 ^ 2 * (p1.y - p0.y) := by
    have : Y = kRepel / distance p0 p1 * Real.sin (direction p0 p1) := by
      simp only [hY, CalculateYForce, CalculateFRepel, CalculateRadiansAngle, distance,
        direction, realMath, pow_two]
    rw [this, hsin, div_mul_div_comm, ← pow_two, mul_div_right_comm]
  have hk : (0 : ℝ) < kRepel := by unfold kRepel; norm_num
  have hc : 0 < 2 * (kRepel : ℝ) / distance p0 p1 ^ 2 := by positivity
  have hx : p1.x + (0 + X) - (p0.x + (0 - X))
      = (1 + 2 * kRepel / distance p0 p1 ^ 2) * (p1.x - p0.x) := by
    rw [hXv]; ring
  have hy : p1.y + (0 + Y) - (p0.y + (0 - Y))
      = (1 + 2 * kRepel / distance p0 p1 ^ 2) * (p1.y - p0.y) := by
    rw [hYv]; ring
  refine ⟨⟨p0.x + (0 - X), p0.y + (0 - Y)⟩, ⟨p1.x + (0 + X), p1.y + (0 + Y)⟩,
    TransformGraph_eq realMath _ _ _ _ h1 h2 h3, hx, hy, ?_⟩
  have hdist : distance ⟨p0.x + (0 - X), p0.y + (0 - Y)⟩ ⟨p1.x + (0 + X), p1.y + (0 + Y)⟩
      = (1 + 2 * kRepel / distance p0 p1 ^ 2) * distance p0 p1 := by
    have hsq : ((1 + 2 * kRepel / distance p0 p1 ^ 2) * (p1.x - p0.x)) ^ 2
        + ((1 + 2 * kRepel / distance p0 p1 ^ 2) * (p1.y - p0.y)) ^ 2
        = (1 + 2 * kRepel / distance p0 p1 ^ 2) ^ 2
          * ((p1.x - p0.x) ^ 2 + (p1.y - p0.y) ^ 2) := by ring
    show Real.sqrt ((p1.x + (0 + X) - (p0.x + (0 - X))) ^ 2
      + (p1.y + (0 + Y) - (p0.y + (0 - Y))) ^ 2) = _
    rw [hx, hy, hsq, Real.sqrt_mul (sq_nonneg _), Real.sqrt_sq (by linarith)]
    rfl
  rw [hdist]
  nlinarith

/-- C17 from `(-1, 0)` and `(1, 0)`: the difference `(2, 0)` becomes `(2.01, 0)`. -/
theorem C17_two_nodes_repel_witness :
    ∃ q0 q1 : Node ℝ,
      TransformGraph realMath { nodes := [⟨-1, 0⟩, ⟨1, 0⟩], edges := [] }
        = some { nodes := [q0, q1], edges := [] } ∧
      q1.x - q0.x = 2.01 ∧ q1.y - q0.y = 0 := by
  have hne : (⟨-1, 0⟩ : Node ℝ) ≠ ⟨1, 0⟩ := by
    intro h
    have hx := congrArg Node.x h
    norm_num at hx
  obtain ⟨q0, q1, ht, hx, hy, _⟩ := C17_two_nodes_repel ⟨-1, 0⟩ ⟨1, 0⟩ hne
  have hdist : distance ⟨-1, 0⟩ ⟨1, 0⟩ = 2 := by
    unfold distance
    rw [show ((1 : ℝ) - -1) ^ 2 + ((0 : ℝ) - 0) ^ 2 = 2 ^ 2 by norm_num]
    exact Real.sqrt_sq (by norm_num)
  rw [hdist] at hx hy
  refine ⟨q0, q1, ht, ?_, ?_⟩
  · rw [hx]; unfold kRepel; norm_num
  · rw [hy]; norm_num

/-! ### Loading a file with a malformed tail -/

/-- Extraction fails when the text, after its white space, does not begin a number. -/
theorem extractSizeT_fails (file : List Char)
    (h : beginsNumber (file.dropWhile isSpace) = false) :
    (extractSizeT { buf := file, fail := false }).2 = none := by
  unfold extractSizeT
  simp only [Bool.false_eq_true, if_false]
  cases hd : file.dropWhile isSpace with
  | nil => rfl
  | cons c cs =>
    rw [hd] at h
    simp only [beginsNumber] at h
    by_cases hs : c = '-' ∨ c = '+'
    · have hs' : c = '+' ∨ c = '-' := hs.symm
      simp only [hs, hs', if_true] at h ⊢
      cases cs with
      | nil => rfl
      | cons d ds =>
        simp only at h
        simp [h]
    · have hs' : ¬ (c = '+' ∨ c = '-') := fun h' => hs h'.symm
      simp only [hs, hs', if_false] at h ⊢
      simp [h]

theorem noDigitAhead_of_not_beginsNumber (rest : List Char)
    (h : beginsNumber (rest.dropWhile isSpace) = false) : NoDigitAhead rest := by
  intro c cs hc
  cases hd : isDigit c with
  | false => rfl
  | true =>
    have hsp := not_isSpace_of_isDigit c hd
    have hsign := not_sign_of_isDigit c hd
    have hsign' : ¬ (c = '+' ∨ c = '-') := fun h' => hsign h'.symm
    rw [hc] at h
    simp [List.dropWhile, hsp, beginsNumber, hsign', hd] at h

theorem noDigitAhead_of_gap (gap rest : List Char) (hg : IsGap gap) :
    NoDigitAhead (gap ++ rest) := by
  apply noDigitAhead_of_space
  obtain ⟨a, w, hw⟩ := List.exists_cons_of_ne_nil hg.1
  intro c cs h
  simp only [hw, List.cons_append, List.cons.injEq] at h
  rw [← h.1]
  exact hg.2 a (by rw [hw]; exact List.mem_cons_self _ _)

theorem failingTail_noDigitAhead (rest : List Char) (h : FailingTail rest) :
    NoDigitAhead rest := by
  rcases h with h | ⟨gap, v, rest', rfl, hg, _, _⟩
  · exact noDigitAhead_of_not_beginsNumber rest h
  · rw [List.append_assoc]
    exact noDigitAhead_of_gap gap _ hg

/-- On a failing tail the edge loop pushes nothing. -/
theorem readEdges_failingTail (rest : List Char) (h : FailingTail rest) (fuel : Nat)
    (acc : List Edge) : readEdges fuel { buf := rest, fail := false } acc = acc := by
  cases fuel with
  | zero => rfl
  | succ f =>
    rcases h with h | ⟨gap, v, rest', rfl, hg, hv, hfail⟩
    · have hx := extractSizeT_fails rest h
      unfold readEdges
      split
      · rfl
      · rename_i heq
        rw [heq] at hx
        cases hx
    · have h1 := extractSizeT_number gap rest' v hg.2 hv
        (noDigitAhead_of_not_beginsNumber rest' hfail)
      have hx := extractSizeT_fails rest' hfail
      unfold readEdges
      rw [h1]
      simp only
      split
      · rfl
      · rename_i heq
        rw [heq] at hx
        cases hx

/-- The edge loop reads the well-formed pairs in front of a failing tail and stops. -/
theorem readEdges_then_tail (entries : List EdgeText) (rest : List Char)
    (hgaps : ∀ t ∈ entries, IsGap t.lead ∧ IsGap t.mid)
    (hvals : ∀ t ∈ entries, t.start < 2 ^ 64 ∧ t.stop < 2 ^ 64)
    (hrest : FailingTail rest) :
    ∀ (fuel : Nat) (acc : List Edge), entries.length ≤ fuel →
      readEdges fuel { buf := edgesText entries ++ rest, fail := false } acc
        = acc ++ entries.map (fun t => { start := t.start, «end» := t.stop }) := by
  induction entries with
  | nil =>
    intro fuel acc _
    have : edgesText [] ++ rest = rest := rfl
    rw [this, readEdges_failingTail rest hrest]
    simp
  | cons t ts ih =>
    intro fuel acc hfuel
    obtain ⟨f, rfl⟩ : ∃ f, fuel = f + 1 := ⟨fuel - 1, by simp at hfuel; omega⟩
    have hg := hgaps t (List.mem_cons_self _ _)
    have hv := hvals t (List.mem_cons_self _ _)
    have hgaps' : ∀ u ∈ ts, IsGap u.lead ∧ IsGap u.mid :=
      fun u hu => hgaps u (List.mem_cons_of_mem _ hu)
    have hvals' : ∀ u ∈ ts, u.start < 2 ^ 64 ∧ u.stop < 2 ^ 64 :=
      fun u hu => hvals u (List.mem_cons_of_mem _ hu)
    have htail : NoDigitAhead (edgesText ts ++ rest) := by
      cases ts with
      | nil => exact failingTail_noDigitAhead rest hrest
      | cons u us =>
        have hu := (hgaps' u (List.mem_cons_self _ _)).1
        have : edgesText (u :: us) ++ rest = u.lead ++ (Nat.toDigits 10 u.start
            ++ (u.mid ++ Nat.toDigits 10 u.stop) ++ edgesText us ++ rest) := by
          simp [edgesText, List.append_assoc]
        rw [this]
        exact noDigitAhead_of_gap _ _ hu
    have hshape : edgesText (t :: ts) ++ rest = t.lead ++ Nat.toDigits 10 t.start
        ++ (t.mid ++ Nat.toDigits 10 t.stop ++ (edgesText ts ++ rest)) := by
      simp [edgesText, List.append_assoc]
    have h1 := extractSizeT_number t.lead
      (t.mid ++ Nat.toDigits 10 t.stop ++ (edgesText ts ++ rest)) t.start hg.1.2 hv.1
      (by rw [List.append_assoc]; exact noDigitAhead_of_gap _ _ hg.2)
    have h2 := extractSizeT_number t.mid (edgesText ts ++ rest) t.stop hg.2.2 hv.2 htail
    rw [hshape]
    simp only [readEdges, h1, h2]
    rw [ih hgaps' hvals' f _ (by simp at hfuel; omega)]
    simp

/-- C15, as stated, fails: after the count `3` and the pair `0 1`, the token `1+2` is not an
unsigned integer, yet it is read as the pair `(1, 2)` and becomes a second edge. -/
theorem C15_counterexample :
    "3\n0 1\n1+2".toList
      = graphText [] 3 [⟨"\n".toList, 0, " ".toList, 1⟩] ("\n".toList ++ "1+2".toList) ∧
    ¬ IsUnsignedToken "1+2".toList ∧
    (LoadGraph realMath "3\n0 1\n1+2".toList).edges = [⟨0, 1⟩, ⟨1, 2⟩] := by
  refine ⟨by decide, ?_, by decide⟩
  rintro ⟨_, h⟩
  exact absurd (h '+' (by decide)) (by decide)

/-- C15, amended: when a valid node count and `k` well-formed pairs are followed by text on
which the next read of a pair fails (text that, after white space, is exhausted or does not
begin with a digit or a sign followed by a digit, possibly after one more index), loading
keeps the `n` nodes and yields exactly the `k` pairs as edges. -/
theorem C15_load_stops_at_failed_read (F : MathOps R) (lead rest : List Char) (n : Nat)
    (entries : List EdgeText) (hlead : ∀ c ∈ lead, isSpace c = true) (hn : n < 2 ^ 64)
    (hgaps : ∀ t ∈ entries, IsGap t.lead ∧ IsGap t.mid)
    (hvals : ∀ t ∈ entries, t.start < 2 ^ 64 ∧ t.stop < 2 ^ 64)
    (hrest : FailingTail rest) :
    (LoadGraph F (graphText lead n entries rest)).nodes
      = (List.range n).map (fun i => CreateInitialNode F i n) ∧
    (LoadGraph F (graphText lead n entries rest)).nodes.length = n ∧
    (LoadGraph F (graphText lead n entries rest)).edges
      = entries.map (fun t => { start := t.start, «end» := t.stop }) := by
  have htail : NoDigitAhead (edgesText entries ++ rest) := by
    cases entries with
    | nil => exact failingTail_noDigitAhead rest hrest
    | cons u us =>
      have hu := (hgaps u (List.mem_cons_self _ _)).1
      have : edgesText (u :: us) ++ rest = u.lead ++ (Nat.toDigits 10 u.start
          ++ (u.mid ++ Nat.toDigits 10 u.stop) ++ edgesText us ++ rest) := by
        simp [edgesText, List.append_assoc]
      rw [this]
      exact noDigitAhead_of_gap _ _ hu
  have h1 := extractSizeT_number lead (edgesText entries ++ rest) n hlead hn htail
  have h2 := readEdges_then_tail entries rest hgaps hvals hrest
    (edgesText entries ++ rest).length []
    (by rw [List.length_append]; have := edgesText_length entries; omega)
  have hload : LoadGraph F (graphText lead n entries rest) =
      { nodes := (List.range n).map (fun i => CreateInitialNode F i n)
        edges := entries.map (fun t => { start := t.start, «end» := t.stop }) } := by
    simp only [LoadGraph, graphText, h1, h2, forRangePure_push, List.nil_append]
  rw [hload]
  simp

/-- C15 amended, at the file `3`, `0 1`, `2`: three nodes and the single edge `(0, 1)`. -/
theorem C15_load_stops_at_failed_read_witness :
    (LoadGraph realMath "3\n0 1\n2".toList).nodes.length = 3 ∧
    (LoadGraph realMath "3\n0 1\n2".toList).edges = [⟨0, 1⟩] := by
  have htext : "3\n0 1\n2".toList
      = graphText [] 3 [⟨"\n".toList, 0, " ".toList, 1⟩]
          ("\n".toList ++ Nat.toDigits 10 2 ++ []) := by decide
  have h := C15_load_stops_at_failed_read realMath [] ("\n".toList ++ Nat.toDigits 10 2 ++ [])
    3 [⟨"\n".toList, 0, " ".toList, 1⟩] (by decide) (by decide)
    (by simp [IsGap, isSpace]) (by simp)
    (Or.inr ⟨"\n".toList, 2, [], rfl, by simp [IsGap, isSpace], by decide, by decide⟩)
  rw [htext]
  exact ⟨h.2.1, h.2.2⟩

/-! ### The duration prompt -/

/-- What `readDigits` consumes is a run of digits with the accumulated value, and what it
leaves does not start with a digit. -/
theorem readDigits_split (l : List Char) :
    ∀ acc, ∃ ds, l = ds ++ (readDigits l acc).2 ∧ (∀ c ∈ ds, isDigit c = true) ∧
      (readDigits l acc).1 = ds.foldl (fun a c => 10 * a + digitValue c) acc := by
  induction l with
  | nil => intro acc; exact ⟨[], rfl, by simp, rfl⟩
  | cons c cs ih =>
    intro acc
    by_cases h : isDigit c = true
    · obtain ⟨ds, h1, h2, h3⟩ := ih (10 * acc + digitValue c)
      refine ⟨c :: ds, ?_, ?_, ?_⟩
      · simp only [readDigits, h, if_true, List.cons_append]
        rw [← h1]
      · intro x hx
        rcases List.mem_cons.1 hx with rfl | hx
        · exact h
        · exact h2 x hx
      · simp only [readDigits, h, if_true, List.foldl_cons]
        exact h3
    · refine ⟨[], ?_, by simp, ?_⟩ <;> simp [readDigits, h]

theorem not_isSpace_sign (c : Char) (h : c = '-' ∨ c = '+') : isSpace c = false := by
  rcases h with rfl | rfl <;> decide

/-- An integer line is accepted by the two extractions of `GetInteger`. -/
theorem extractInt_of_integerLine (line : List Char) (v : Int) (h : IsIntegerLine line v) :
    ∃ rest, extractInt line = some (v, rest) ∧ extractChar rest = none := by
  obtain ⟨ws1, sign, ds, ws2, rfl, hws1, hws2, hsign, hne, hds, hv, hlo, hhi⟩ := h
  obtain ⟨d, ds', rfl⟩ := List.exists_cons_of_ne_nil hne
  have hd : isDigit d = true := hds d (List.mem_cons_self _ _)
  have hnd : NoDigitAhead ws2 := noDigitAhead_of_space ws2 (space_head_of_all ws2 hws2)
  have hread : readDigits (d :: (ds' ++ ws2)) 0
      = ((d :: ds').foldl (fun a c => 10 * a + digitValue c) 0, ws2) :=
    readDigits_append (d :: ds') ws2 hds hnd 0
  have hchar : extractChar ws2 = none := by
    unfold extractChar
    rw [(List.dropWhile_eq_nil_iff).2 (fun x hx => hws2 x hx)]
    rfl
  have hdsign : ¬ (d = '-' ∨ d = '+') := not_sign_of_isDigit d hd
  refine ⟨ws2, ?_, hchar⟩
  rcases hsign with rfl | rfl | rfl
  · have hdrop : (ws1 ++ [] ++ (d :: ds') ++ ws2).dropWhile isSpace = d :: (ds' ++ ws2) := by
      rw [List.append_nil, List.append_assoc, dropWhile_isSpace_append ws1 _ hws1]
      · rfl
      · intro c cs hc
        simp only [List.cons_append, List.cons.injEq] at hc
        rw [← hc.1]
        exact not_isSpace_of_isDigit d hd
    have hm : ¬ d = '-' := fun h' => hdsign (Or.inl h')
    simp only [if_neg (show ¬ (([] : List Char) = ['-']) by simp)] at hv hlo hhi
    have hp : ¬ d = '+' := fun h' => hdsign (Or.inr h')
    simp only [extractInt, hdrop, hm, hp, or_self, if_false, hd, if_true, hread]
    rw [← hv, if_pos ⟨hlo, hhi⟩]
  · have hdrop : (ws1 ++ ['+'] ++ (d :: ds') ++ ws2).dropWhile isSpace
        = '+' :: (d :: (ds' ++ ws2)) := by
      rw [List.append_assoc, List.append_assoc, dropWhile_isSpace_append ws1 _ hws1]
      · rfl
      · intro c cs hc
        simp only [List.cons_append, List.nil_append, List.cons.injEq] at hc
        rw [← hc.1]
        decide
    simp only [if_neg (show ¬ (['+'] = ['-']) by decide)] at hv hlo hhi
    simp only [extractInt, hdrop, show ¬ ('+' = '-') by decide, false_or, if_true, hd,
      hread, if_false]
    rw [← hv, if_pos ⟨hlo, hhi⟩]
  · have hdrop : (ws1 ++ ['-'] ++ (d :: ds') ++ ws2).dropWhile isSpace
        = '-' :: (d :: (ds' ++ ws2)) := by
      rw [List.append_assoc, List.append_assoc, dropWhile_isSpace_append ws1 _ hws1]
      · rfl
      · intro c cs hc
        simp only [List.cons_append, List.nil_append, List.cons.injEq] at hc
        rw [← hc.1]
        decide
    simp only [if_true] at hv hlo hhi
    simp only [extractInt, hdrop, true_or, if_true, hd, hread]
    rw [← hv, if_pos ⟨hlo, hhi⟩]

/-- A line accepted by the two extractions of `GetInteger` is an integer line. -/
theorem integerLine_of_extractInt (line : List Char) (v : Int) (rest : List Char)
    (h : extractInt line = some (v, rest)) (hc : extractChar rest = none) :
    IsIntegerLine line v := by
  have hrest : ∀ x ∈ rest, isSpace x = true := by
    have : rest.dropWhile isSpace = [] := List.head?_eq_none_iff.1 hc
    exact (List.dropWhile_eq_nil_iff).1 this
  have hline : line = line.takeWhile isSpace ++ line.dropWhile isSpace :=
    (List.takeWhile_append_dropWhile isSpace line).symm
  have hws1 : ∀ x ∈ line.takeWhile isSpace, isSpace x = true :=
    fun x hx => List.mem_takeWhile_imp hx
  cases hdrop : line.dropWhile isSpace with
  | nil => simp [extractInt, hdrop] at h
  | cons c cs =>
    -- the digits start after an optional sign
    have key : ∀ (sign : List Char) (d : Char) (ds0 : List Char) (neg : Bool),
        c :: cs = sign ++ d :: ds0 → (sign = [] ∨ sign = ['+'] ∨ sign = ['-']) →
        (neg = true ↔ sign = ['-']) → isDigit d = true →
        v = (if neg = true then -((readDigits (d :: ds0) 0).1 : Int)
             else ((readDigits (d :: ds0) 0).1 : Int)) →
        rest = (readDigits (d :: ds0) 0).2 → -2 ^ 31 ≤ v ∧ v ≤ 2 ^ 31 - 1 →
        IsIntegerLine line v := by
      intro sign d ds0 neg hshape hsign hneg hd hv hr hrange
      obtain ⟨ds, h1, h2, h3⟩ := readDigits_split (d :: ds0) 0
      have hne : ds ≠ [] := by
        intro hnil
        rw [hnil, List.nil_append] at h1
        have hlen := congrArg List.length h1
        have hle : (readDigits (d :: ds0) 0).2.length ≤ ds0.length := by
          simp only [readDigits, hd, if_true]
          exact readDigits_length ds0 _
        simp only [List.length_cons] at hlen
        omega
      refine ⟨line.takeWhile isSpace, sign, ds, rest, ?_, hws1, hrest, hsign, hne, h2, ?_,
        hrange.1, hrange.2⟩
      · rw [List.append_assoc, List.append_assoc, hr, ← h1, ← hshape, ← hdrop]
        exact hline
      · rw [hv, h3]
        by_cases hn : neg = true
        · rw [if_pos hn, if_pos (hneg.1 hn)]
        · rw [if_neg hn, if_neg (fun h' => hn (hneg.2 h'))]
    simp only [extractInt, hdrop] at h
    by_cases hs : c = '-' ∨ c = '+'
    · rw [if_pos hs] at h
      cases cs with
      | nil => simp at h
      | cons d ds0 =>
        simp only at h
        by_cases hd : isDigit d = true
        · rw [if_pos hd] at h
          by_cases hrange :
              -2 ^ 31 ≤ (if c = '-' then -((readDigits (d :: ds0) 0).1 : Int)
                else ((readDigits (d :: ds0) 0).1 : Int)) ∧
              (if c = '-' then -((readDigits (d :: ds0) 0).1 : Int)
                else ((readDigits (d :: ds0) 0).1 : Int)) ≤ 2 ^ 31 - 1
          · rw [if_pos hrange] at h
            simp only [Option.some.injEq, Prod.mk.injEq] at h
            obtain ⟨hv, hr⟩ := h
            rcases hs with rfl | rfl
            · exact key ['-'] d ds0 true rfl (Or.inr (Or.inr rfl)) (by simp) hd
                (by rw [← hv]; simp) hr.symm (by rw [← hv]; exact hrange)
            · exact key ['+'] d ds0 false rfl (Or.inr (Or.inl rfl)) (by simp) hd
                (by rw [← hv]; simp) hr.symm (by rw [← hv]; exact hrange)
          · rw [if_neg hrange] at h
            cases h
        · rw [if_neg hd] at h
          cases h
    · rw [if_neg hs] at h
      simp only at h
      have hm : ¬ c = '-' := fun h' => hs (Or.inl h')
      by_cases hd : isDigit c = true
      · rw [if_pos hd] at h
        by_cases hrange :
            -2 ^ 31 ≤ (if c = '-' then -((readDigits (c :: cs) 0).1 : Int)
              else ((readDigits (c :: cs) 0).1 : Int)) ∧
            (if c = '-' then -((readDigits (c :: cs) 0).1 : Int)
              else ((readDigits (c :: cs) 0).1 : Int)) ≤ 2 ^ 31 - 1
        · rw [if_pos hrange] at h
          simp only [Option.some.injEq, Prod.mk.injEq] at h
          obtain ⟨hv, hr⟩ := h
          exact key [] c cs false rfl (Or.inl rfl) (by simp) hd
            (by rw [← hv]; simp [hm]) hr.symm (by rw [← hv]; exact hrange)
        · rw [if_neg hrange] at h
          cases h
      · rw [if_neg hd] at h
        cases h

/-- `GetInteger` returns the value of an integer line and consumes that line only. -/
theorem GetInteger_accept (line : List Char) (v : Int) (rest : List (List Char))
    (out : List String) (h : IsIntegerLine line v) :
    GetInteger (line :: rest) out = some (v, rest, out) := by
  obtain ⟨after, h1, h2⟩ := extractInt_of_integerLine line v h
  simp only [GetInteger, h1, h2]

/-- `GetInteger` skips a line that is not an integer line. -/
theorem GetInteger_reject (line : List Char) (rest : List (List Char)) (out : List String)
    (h : ∀ w, ¬ IsIntegerLine line w) :
    ∃ out', GetInteger (line :: rest) out = GetInteger rest out' := by
  cases h1 : extractInt line with
  | none =>
    exact ⟨out ++ ["Please enter an integer.", "Retry: "], by simp only [GetInteger, h1]⟩
  | some r =>
    obtain ⟨w, after⟩ := r
    cases h2 : extractChar after with
    | none => exact absurd (integerLine_of_extractInt line w after h1 h2) (h w)
    | some c =>
      exact ⟨out ++ ["Unexpected character: " ++ String.singleton c, "Retry: "],
        by simp only [GetInteger, h1, h2]⟩

/-- A line denotes at most one integer. -/
theorem IsIntegerLine_unique (line : List Char) (v w : Int) (hv : IsIntegerLine line v)
    (hw : IsIntegerLine line w) : v = w := by
  obtain ⟨r1, h1, _⟩ := extractInt_of_integerLine line v hv
  obtain ⟨r2, h2, _⟩ := extractInt_of_integerLine line w hw
  rw [h1] at h2
  exact (Prod.mk.inj (Option.some.inj h2)).1

/-- The loop of `GetPositiveInteger` skips every line that is not a positive integer line
and returns at the first one that is. -/
theorem GetPositiveIntegerLoop_first (pre : List (List Char)) (good : List Char)
    (post : List (List Char)) (v : Int) (hgood : IsIntegerLine good v) (hpos : 0 < v)
    (hpre : ∀ l ∈ pre, ∀ w, IsIntegerLine l w → ¬ 0 < w) :
    ∀ (fuel : Nat) (out : List String), pre.length < fuel →
      ∃ out', GetPositiveIntegerLoop fuel (pre ++ good :: post) out = some (v, post, out') := by
  induction pre with
  | nil =>
    intro fuel out hfuel
    obtain ⟨f, rfl⟩ : ∃ f, fuel = f + 1 := ⟨fuel - 1, by simp at hfuel; omega⟩
    refine ⟨out, ?_⟩
    simp only [List.nil_append, GetPositiveIntegerLoop, GetInteger_accept good v post out hgood,
      gt_iff_lt, hpos, if_true]
  | cons l pre ih =>
    intro fuel out hfuel
    obtain ⟨f, rfl⟩ : ∃ f, fuel = f + 1 := ⟨fuel - 1, by simp at hfuel; omega⟩
    have hpre' : ∀ l' ∈ pre, ∀ w, IsIntegerLine l' w → ¬ 0 < w :=
      fun l' hl' => hpre l' (List.mem_cons_of_mem _ hl')
    simp only [List.length_cons] at hfuel
    by_cases hl : ∃ w, IsIntegerLine l w
    · obtain ⟨w, hw⟩ := hl
      have hnp : ¬ w > 0 := hpre l (List.mem_cons_self _ _) w hw
      obtain ⟨out', h'⟩ := ih hpre' f
        (out ++ ["Not a positive integer.", "Please enter a positive integer: "]) (by omega)
      refine ⟨out', ?_⟩
      simp only [List.cons_append, GetPositiveIntegerLoop,
        GetInteger_accept l w (pre ++ good :: post) out hw, hnp, if_false]
      exact h'
    · have hl' : ∀ w, ¬ IsIntegerLine l w := fun w hw => hl ⟨w, hw⟩
      obtain ⟨out1, h1⟩ := GetInteger_reject l (pre ++ good :: post) out hl'
      obtain ⟨out', h'⟩ := ih hpre' (f + 1) out1 (by omega)
      refine ⟨out', ?_⟩
      rw [← h']
      simp only [List.cons_append, GetPositiveIntegerLoop, h1]

/-- The loop of `GetPositiveInteger` only returns positive values. -/
theorem GetPositiveIntegerLoop_pos (fuel : Nat) :
    ∀ (lines : List (List Char)) (out : List String) (r : Int × List (List Char) × List String),
      GetPositiveIntegerLoop fuel lines out = some r → 0 < r.1 := by
  induction fuel with
  | zero => intro lines out r h; cases h
  | succ f ih =>
    intro lines out r h
    unfold GetPositiveIntegerLoop at h
    split at h
    · cases h
    · rename_i integer rest out' _
      by_cases hp : integer > 0
      · rw [if_pos hp] at h
        cases h
        exact hp
      · rw [if_neg hp] at h
        exact ih _ _ r h

/-- C11, as stated, fails: the line `2147483648` is a syntactically valid integer with no
trailing garbage and is strictly positive, yet on the lines `2147483648`, `7` the prompt
rejects it (the value does not fit `int`), asks again and returns `7`, the value of the
second line; on the line `2147483648` alone it returns nothing, the input being exhausted
while it asks again. -/
theorem C11_counterexample :
    IsIntegerSyntax "2147483648".toList 2147483648 ∧ (0 : Int) < 2147483648 ∧
    PromptForTime ["2147483648".toList, "7".toList] []
      = some (7, [], ["Enter an integer number of seconds to run the algorithm: ",
          "Please enter an integer.", "Retry: "]) ∧
    PromptForTime ["2147483648".toList] [] = none := by
  refine ⟨⟨[], [], "2147483648".toList, [], by decide, by decide, by decide, by decide,
    by decide, by decide, by decide⟩, by decide, by decide, by decide⟩

/-- C11, amended: when the input holds a line that is a syntactically valid integer with no
trailing garbage, fits the type `int` and is strictly positive, and no earlier line is one,
`PromptForTime` returns the value of that line and leaves exactly the lines after it;
whatever the input, `PromptForTime` never returns a value `≤ 0`. -/
theorem C11_prompt_for_time (pre : List (List Char)) (good : List Char)
    (post : List (List Char)) (v : Int) (out : List String)
    (hgood : IsIntegerLine good v) (hpos : 0 < v)
    (hpre : ∀ l ∈ pre, ¬ ∃ w, IsIntegerLine l w ∧ 0 < w) :
    (∃ out', PromptForTime (pre ++ good :: post) out = some (v, post, out')) ∧
    ∀ (lines : List (List Char)) (o : List String) (r : Int × List (List Char) × List String),
      PromptForTime lines o = some r → 0 < r.1 := by
  constructor
  · unfold PromptForTime GetPositiveInteger
    exact GetPositiveIntegerLoop_first pre good post v hgood hpos
      (fun l hl w hw hp => hpre l hl ⟨w, hw, hp⟩) _ _ (by simp)
  · intro lines o r h
    exact GetPositiveIntegerLoop_pos _ _ _ r h

/-- C11 on the lines `-5`, `0`, `abc`, `3`: the value returned is 3 and no line is left. -/
theorem C11_prompt_for_time_witness :
    ∃ out', PromptForTime ["-5".toList, "0".toList, "abc".toList, "3".toList] []
      = some (3, [], out') := by
  have h3 : IsIntegerLine "3".toList 3 :=
    integerLine_of_extractInt "3".toList 3 [] (by decide) (by decide)
  have hno : ∀ l ∈ ["-5".toList, "0".toList, "abc".toList],
      ¬ ∃ w, IsIntegerLine l w ∧ 0 < w := by
    intro l hl
    rintro ⟨w, hw, hp⟩
    obtain ⟨r, h1, _⟩ := extractInt_of_integerLine l w hw
    simp only [List.mem_cons, List.mem_singleton, List.not_mem_nil, or_false] at hl
    rcases hl with rfl | rfl | rfl
    · have h2 : extractInt "-5".toList = some (-5, []) := by decide
      rw [h2] at h1
      have := (Prod.mk.inj (Option.some.inj h1)).1
      omega
    · have h2 : extractInt "0".toList = some (0, []) := by decide
      rw [h2] at h1
      have := (Prod.mk.inj (Option.some.inj h1)).1
      omega
    · have h2 : extractInt "abc".toList = none := by decide
      rw [h2] at h1
      cases h1
  exact (C11_prompt_for_time ["-5".toList, "0".toList, "abc".toList] "3".toList [] 3 []
    h3 (by norm_num) hno).1

/-- C12, as stated, fails: on the lines `-5`, `0`, `abc`, `3` the prompt returns 3 after
three requests to enter the value again, of which one is the message `Retry: `. -/
theorem C12_counterexample :
    (PromptForTime ["-5".toList, "0".toList, "abc".toList, "3".toList] []).map
        (fun r => (r.1, (r.2.2.filter isRetryMessage).length, r.2.2.count "Retry: "))
      = some (3, 3, 1) := by
  decide

/-- C12, amended: on the lines `-5`, `0`, `abc`, `3` the prompt returns exactly the integer 3,
reads all four lines, and writes, after its question, `Not a positive integer.` and
`Please enter a positive integer: ` twice (for `-5` and `0`) and then
`Please enter an integer.` and `Retry: ` once (for `abc`): three requests to enter the value
again. -/
theorem C12_prompt_transcript :
    PromptForTime ["-5".toList, "0".toList, "abc".toList, "3".toList] []
      = some (3, [],
          ["Enter an integer number of seconds to run the algorithm: ",
           "Not a positive integer.", "Please enter a positive integer: ",
           "Not a positive integer.", "Please enter a positive integer: ",
           "Please enter an integer.", "Retry: "]) := by
  decide

/-! ### The driver -/

/-- One step is defined on a graph with valid edges and keeps the edges valid. -/
theorem TransformGraph_valid (F : MathOps R) (graph : SimpleGraph R)
    (hsize : graph.nodes.length < 2 ^ 64) (hvalid : ValidEdges graph) :
    ∃ g', TransformGraph F graph = some g' ∧ g'.nodes.length < 2 ^ 64 ∧ ValidEdges g' := by
  obtain ⟨_, _, g', _, _, _, _, _, ht, he, hn, _⟩ := TransformGraph_entries F graph hsize hvalid
  refine ⟨g', ht, by rw [hn]; exact hsize, ?_⟩
  intro e hmem
  rw [he] at hmem
  rw [hn]
  exact hvalid e hmem

theorem stepN_succ (F : MathOps R) (n : Nat) (graph g1 : SimpleGraph R)
    (h : TransformGraph F graph = some g1) : stepN F (n + 1) graph = stepN F n g1 := by
  unfold stepN
  rw [iterateStep, h]

theorem stepN_zero (F : MathOps R) (graph : SimpleGraph R) : stepN F 0 graph = some graph :=
  rfl

/-- The running loop stops after a step when the elapsed time exceeds the duration. -/
theorem runningLoop_stop (F : MathOps R) (algorithmTime startTime now : Int)
    (clock : List Int) (graph g1 : SimpleGraph R) (frames : List (SimpleGraph R))
    (h : TransformGraph F graph = some g1)
    (ht : GetElapsedTime startTime now > algorithmTime) :
    runningLoop F algorithmTime startTime (now :: clock) graph frames
      = some (g1, clock, frames ++ [g1]) := by
  rw [runningLoop, runningLoopWith, h]
  show (if GetElapsedTime startTime now > algorithmTime then some (g1, clock, frames ++ [g1])
    else runningLoopWith (TransformGraph F) algorithmTime startTime clock g1
      (frames ++ [g1])) = _
  rw [if_pos ht]

/-- The running loop goes on after a step when the elapsed time does not exceed the
duration. -/
theorem runningLoop_continue (F : MathOps R) (algorithmTime startTime now : Int)
    (clock : List Int) (graph g1 : SimpleGraph R) (frames : List (SimpleGraph R))
    (h : TransformGraph F graph = some g1)
    (ht : ¬ GetElapsedTime startTime now > algorithmTime) :
    runningLoop F algorithmTime startTime (now :: clock) graph frames
      = runningLoop F algorithmTime startTime clock g1 (frames ++ [g1]) := by
  rw [runningLoop, runningLoopWith, h]
  show (if GetElapsedTime startTime now > algorithmTime then some (g1, clock, frames ++ [g1])
    else runningLoopWith (TransformGraph F) algorithmTime startTime clock g1
      (frames ++ [g1])) = _
  rw [if_neg ht, runningLoop]

/-- The running loop makes one step per clock value up to and including the first value at
which the elapsed time exceeds the duration. -/
theorem runningLoop_spec (F : MathOps R) (algorithmTime startTime : Int) (pre : List Int)
    (t : Int) (post : List Int)
    (hpre : ∀ x ∈ pre, ¬ GetElapsedTime startTime x > algorithmTime)
    (ht : GetElapsedTime startTime t > algorithmTime) :
    ∀ (graph : SimpleGraph R) (frames : List (SimpleGraph R)),
      graph.nodes.length < 2 ^ 64 → ValidEdges graph →
      ∃ gs gk, runningLoop F algorithmTime startTime (pre ++ t :: post) graph frames
          = some (gk, post, frames ++ gs) ∧
        gs.length = pre.length + 1 ∧ stepN F (pre.length + 1) graph = some gk ∧
        ∀ i, i < gs.length → gs[i]? = stepN F (i + 1) graph := by
  induction pre with
  | nil =>
    intro graph frames hsize hvalid
    obtain ⟨g1, h1, _, _⟩ := TransformGraph_valid F graph hsize hvalid
    have hone : stepN F (0 + 1) graph = some g1 := by
      rw [stepN_succ F 0 graph g1 h1, stepN_zero]
    refine ⟨[g1], g1, ?_, rfl, hone, ?_⟩
    · rw [List.nil_append]
      exact runningLoop_stop F algorithmTime startTime t post graph g1 frames h1 ht
    · intro i hi
      have : i = 0 := by
        rw [List.length_singleton] at hi
        exact Nat.lt_one_iff.1 hi
      subst this
      rw [hone, List.getElem?_cons_zero]
  | cons x pre ih =>
    intro graph frames hsize hvalid
    obtain ⟨g1, h1, hs1, hv1⟩ := TransformGraph_valid F graph hsize hvalid
    have hx : ¬ GetElapsedTime startTime x > algorithmTime := hpre x (List.mem_cons_self _ _)
    obtain ⟨gs, gk, hrun, hlen, hk, hfr⟩ :=
      ih (fun y hy => hpre y (List.mem_cons_of_mem _ hy)) g1 (frames ++ [g1]) hs1 hv1
    refine ⟨g1 :: gs, gk, ?_, by rw [List.length_cons, List.length_cons, hlen], ?_, ?_⟩
    · rw [List.cons_append,
        runningLoop_continue F algorithmTime startTime x _ graph g1 frames h1 hx, hrun,
        List.append_assoc, List.singleton_append]
    · rw [List.length_cons, stepN_succ F _ graph g1 h1]
      exact hk
    · intro i hi
      cases i with
      | zero =>
        rw [stepN_succ F 0 graph g1 h1, stepN_zero, List.getElem?_cons_zero]
      | succ j =>
        rw [List.getElem?_cons_succ, stepN_succ F _ graph g1 h1]
        exact hfr j (Nat.lt_of_succ_lt_succ (by rw [List.length_cons] at hi; exact hi))

/-- C18: with clock values whose elapsed time exceeds the duration for the first time at the
`k`-th value read (`k ≥ 1`; equality does not count), the running loop of `main` completes
after exactly `k` steps of `TransformGraph`, each followed by one call of `DrawGraph` on the
graph just computed, and has read exactly `k` clock values. -/
theorem C18_running_loop (F : MathOps R) (algorithmTime startTime : Int) (pre : List Int)
    (t : Int) (post : List Int) (graph : SimpleGraph R) (frames : List (SimpleGraph R))
    (hsize : graph.nodes.length < 2 ^ 64) (hvalid : ValidEdges graph)
    (hpre : ∀ x ∈ pre, GetElapsedTime startTime x ≤ algorithmTime)
    (ht : algorithmTime < GetElapsedTime startTime t) :
    ∃ gs gk, runningLoop F algorithmTime startTime (pre ++ t :: post) graph frames
        = some (gk, post, frames ++ gs) ∧
      gs.length = pre.length + 1 ∧ 1 ≤ gs.length ∧
      stepN F (pre.length + 1) graph = some gk ∧
      ∀ i, i < gs.length → gs[i]? = stepN F (i + 1) graph := by
  obtain ⟨gs, gk, h1, h2, h3, h4⟩ := runningLoop_spec F algorithmTime startTime pre t post
    (fun x hx => not_lt.2 (hpre x hx)) ht graph frames hsize hvalid
  exact ⟨gs, gk, h1, h2, by omega, h3, h4⟩

/-- C18 with duration 1, start 0 and the clock values 1, 2, 3: two steps are made (the
value 1 equals the duration and does not stop the loop) and the value 3 is not read. -/
theorem C18_running_loop_witness :
    ∃ gs gk, runningLoop realMath 1 0 [1, 2, 3]
        { nodes := [⟨-1, 0⟩, ⟨1, 0⟩], edges := [⟨0, 1⟩] } []
        = some (gk, [3], gs) ∧ gs.length = 2 := by
  obtain ⟨gs, gk, h1, h2, _⟩ := C18_running_loop realMath 1 0 [1] 2 [3]
    { nodes := [⟨-1, 0⟩, ⟨1, 0⟩], edges := [⟨0, 1⟩] } [] (by simp) (by simp [ValidEdges])
    (by decide) (by decide)
  exact ⟨gs, gk, h1, h2⟩

theorem GetInteger_shrinks (lines : List (List Char)) :
    ∀ (out : List String) (r : Int × List (List Char) × List String),
      GetInteger lines out = some r → r.2.1.length < lines.length := by
  induction lines with
  | nil => intro out r h; cases h
  | cons l rest ih =>
    intro out r h
    unfold GetInteger at h
    split at h
    · split at h
      · have := ih _ r h
        simp only [List.length_cons]; omega
      · cases h
        simp
    · have := ih _ r h
      simp only [List.length_cons]; omega

theorem GetPositiveIntegerLoop_shrinks (fuel : Nat) :
    ∀ (lines : List (List Char)) (out : List String) (r : Int × List (List Char) × List String),
      GetPositiveIntegerLoop fuel lines out = some r → r.2.1.length < lines.length := by
  induction fuel with
  | zero => intro lines out r h; cases h
  | succ f ih =>
    intro lines out r h
    unfold GetPositiveIntegerLoop at h
    split at h
    · cases h
    · rename_i integer rest out' hget
      have h1 := GetInteger_shrinks lines out _ hget
      by_cases hp : integer > 0
      · rw [if_pos hp] at h
        cases h
        exact h1
      · rw [if_neg hp] at h
        have h2 := ih _ _ r h
        simp only at h1
        omega

theorem PromptForFileName_shrinks (files : List Char → Option (List Char))
    (lines : List (List Char)) :
    ∀ (out : List String) (r : List Char × List (List Char) × List String),
      PromptForFileName files lines out = some r → r.2.1.length < lines.length := by
  induction lines with
  | nil => intro out r h; cases h
  | cons l rest ih =>
    intro out r h
    unfold PromptForFileName at h
    split at h
    · cases h
      simp
    · have := ih _ r h
      simp only [List.length_cons]; omega

/-- One run of the program reads at least two lines. -/
theorem oneRun_shrinks (F : MathOps R) (files : List Char → Option (List Char))
    (s s' : Session R) (h : oneRun F files s = some s') :
    s'.lines.length + 1 < s.lines.length := by
  unfold oneRun at h
  split at h
  · cases h
  · rename_i fileName lines1 out1 h1
    have hl1 := PromptForFileName_shrinks files s.lines s.out _ h1
    split at h
    · cases h
    · simp only at h
      split at h
      · cases h
      · rename_i algorithmTime lines2 out2 h2
        have hl2 := GetPositiveIntegerLoop_shrinks _ lines1 _ _ h2
        split at h
        · cases h
        · split at h
          · cases h
          · cases h
            simp only at hl1 hl2 ⊢
            omega

/-- The bound on the number of runs that `main` uses never cuts the loop short: a larger
bound gives the same result. -/
theorem mainLoop_fuel (F : MathOps R) (files : List Char → Option (List Char)) (fuel : Nat) :
    ∀ (k : Nat) (s : Session R), s.lines.length < fuel →
      mainLoop F files (fuel + k) s = mainLoop F files fuel s := by
  induction fuel with
  | zero => intro k s h; omega
  | succ f ih =>
    intro k s h
    have hk : f + 1 + k = (f + k) + 1 := by omega
    rw [hk]
    unfold mainLoop
    cases h1 : oneRun F files s with
    | none => rfl
    | some s' =>
      simp only
      have hs := oneRun_shrinks F files s s' h1
      split
      · apply ih
        have : (GetLine s'.lines).2.length ≤ s'.lines.length := by
          cases s'.lines <;> simp [GetLine]
        simp only
        omega
      · rfl

/-- C13: after a run, `main` starts another run (which begins by loading a graph) when the
line read at the repeat prompt is exactly `yes`, and otherwise returns with exit status 0
without any further action; `Yes`, `y`, ` yes`, the empty line and the end of input are all
different from `yes`. -/
theorem C13_repeat_prompt (F : MathOps R) (files : List Char → Option (List Char))
    (fuel : Nat) (s s' : Session R) (hrun : oneRun F files s = some s') :
    ((GetLine s'.lines).1 = "yes".toList →
      mainLoop F files (fuel + 1) s
        = mainLoop F files fuel { s' with lines := (GetLine s'.lines).2 }) ∧
    ((GetLine s'.lines).1 ≠ "yes".toList →
      mainLoop F files (fuel + 1) s = some (0, { s' with lines := (GetLine s'.lines).2 })) ∧
    "Yes".toList ≠ "yes".toList ∧ "y".toList ≠ "yes".toList ∧ " yes".toList ≠ "yes".toList ∧
    "".toList ≠ "yes".toList ∧ (GetLine []).1 ≠ "yes".toList := by
  refine ⟨?_, ?_, by decide, by decide, by decide, by decide, by decide⟩
  · intro hyes
    simp only [mainLoop, hrun, hyes, if_true]
  · intro hno
    simp only [mainLoop, hrun, hno, if_false]

/-- C13 on the input `g`, `1`, `Yes` with the clock values 0, 1, 2, 3: after the run the line
`Yes` is read and the program returns 0 with nothing left to read. -/
theorem C13_repeat_prompt_witness :
    ∃ s', main realMath sampleFiles ["g".toList, "1".toList, "Yes".toList] [0, 1, 2, 3]
        = some (0, s') ∧ s'.lines = [] := by
  have hsome : ((oneRun realMath sampleFiles
      { lines := ["g".toList, "1".toList, "Yes".toList], clock := [0, 1, 2, 3],
        out := ["Welcome to CS106L GraphViz!",
          "This program uses a force-directed graph layout algorithm",
          "to render sleek, snazzy pictures of various graphs.", ""],
        frames := [] }).map (fun s => s.lines)) = some ["Yes".toList] := by decide
  cases hrun : oneRun realMath sampleFiles
      { lines := ["g".toList, "1".toList, "Yes".toList], clock := [0, 1, 2, 3],
        out := ["Welcome to CS106L GraphViz!",
          "This program uses a force-directed graph layout algorithm",
          "to render sleek, snazzy pictures of various graphs.", ""],
        frames := [] } with
  | none => rw [hrun] at hsome; cases hsome
  | some s' =>
    rw [hrun] at hsome
    have hl : s'.lines = ["Yes".toList] := Option.some.inj hsome
    have hno : (GetLine s'.lines).1 ≠ "yes".toList := by rw [hl]; decide
    have h := (C13_repeat_prompt realMath sampleFiles 3 _ s' hrun).2.1 hno
    refine ⟨{ s' with lines := (GetLine s'.lines).2 }, h, ?_⟩
    simp only [hl, GetLine]

end Claims

end GraphViz
